import Mathlib

/-!
User/File service of `vele/temp_test_repo`.

A shallow embedding of `internal/service/user_service.go` together with the
types it works on (`internal/domain`, `internal/event`,
`internal/repository`).

* Go strings are modelled as `String`; the three `strings` functions the
  service calls (`TrimSpace`, `ToLower`, `Contains`) are written over the
  list of runes.
* Go `error` values are modelled by `Err`; a `nil` error is `none`.
* The persistence gateway and the publisher are interfaces in the source.
  They are modelled as records of state-passing functions over an arbitrary
  world state, so every service operation is a function
  `world → result × world`.
-/

namespace UserSvc

/-! ## Strings (`strings`, `unicode`) -/

/-- Go `unicode.IsSpace`: the Latin-1 cases of the switch statement and the
`White_Space` ranges above Latin-1. -/
def isSpace (r : Char) : Bool :=
  let n := r.toNat
  n = 0x09 || n = 0x0A || n = 0x0B || n = 0x0C || n = 0x0D || n = 0x20 ||
  n = 0x85 || n = 0xA0 || n = 0x1680 || (0x2000 ≤ n && n ≤ 0x200A) ||
  n = 0x2028 || n = 0x2029 || n = 0x202F || n = 0x205F || n = 0x3000

/-- The runes of `d` without the leading and the trailing ones that satisfy
`unicode.IsSpace`. -/
def trimRunes (d : List Char) : List Char :=
  ((d.dropWhile isSpace).reverse.dropWhile isSpace).reverse

/-- Go `strings.TrimSpace`: drops the leading and the trailing runes that
satisfy `unicode.IsSpace`. -/
def TrimSpace (s : String) : String :=
  ⟨trimRunes s.data⟩

/-- Go `unicode.ToLower`. The ASCII branch is the one of the source; above
ASCII Go consults the table `unicode.CaseRanges`, which is taken here as the
parameter `caseRanges`. -/
def unicodeToLower (caseRanges : Char → Char) (r : Char) : Char :=
  if r.toNat ≤ 0x7F then
    if 0x41 ≤ r.toNat ∧ r.toNat ≤ 0x5A then Char.ofNat (r.toNat + 0x20) else r
  else caseRanges r

/-- Go `strings.ToLower`: every rune mapped through `unicode.ToLower`. -/
def ToLower (caseRanges : Char → Char) (s : String) : String :=
  ⟨s.data.map (unicodeToLower caseRanges)⟩

/-- Go `strings.Contains`: `substr` occurs in `s` as a contiguous block. -/
def Contains (s substr : String) : Bool :=
  decide (substr.data <:+: s.data)

/-! ## `internal/domain` -/

/-- Go `error` values that can reach the service. The first four are the
sentinel variables of `domain/errors.go`; `wrapped ctx e` is
`fmt.Errorf(ctx + ": %w", e)`; `other` is any error made elsewhere (driver,
broker). Go compares error values by identity, which is equality here. -/
inductive Err where
  | ErrNotFound
  | ErrConflict
  | ErrInvalidInput
  | ErrUnauthorized
  | wrapped (ctx : String) (inner : Err)
  | other (msg : String)
  deriving DecidableEq, Repr

/-- Instants of `time.Time`, as an abstract count. -/
abbrev Time := Nat

/-- Go `domain.File`. -/
structure File where
  ID : Nat
  UserID : Nat
  Name : String
  Path : String
  CreatedAt : Time
  deriving DecidableEq, Repr

/-- Go `domain.User`; `Age` is a Go `int`. -/
structure User where
  ID : Nat
  Name : String
  Email : String
  Age : Int
  Files : List File
  CreatedAt : Time
  UpdatedAt : Time
  deriving DecidableEq, Repr

/-- The zero value `domain.User{}`. -/
def User.zero : User :=
  { ID := 0, Name := "", Email := "", Age := 0, Files := [], CreatedAt := 0, UpdatedAt := 0 }

/-- The zero value `domain.File{}`. -/
def File.zero : File :=
  { ID := 0, UserID := 0, Name := "", Path := "", CreatedAt := 0 }

/-! ## `internal/event` -/

/-- The three constants of `event.Type`. -/
inductive EventType where
  | UserCreated
  | UserUpdated
  | UserDeleted
  deriving DecidableEq, Repr

/-- Go `event.Event` (`Type_` is the field `Type`); `Payload` is `nil` or the
mutated user. -/
structure Event where
  Type_ : EventType
  UserID : Nat
  Payload : Option User
  OccurredAt : Time
  deriving DecidableEq, Repr

/-! ## Validation (`user_service.go`, lines 189-208) -/

/-- Go `validateEmail`. -/
def validateEmail (email : String) : Option Err :=
  let email := TrimSpace email
  if email = "" ∨ ¬ Contains email "@" then some Err.ErrInvalidInput else none

/-- Go `validateUserInput`. -/
def validateUserInput (name email : String) (age : Int) : Option Err :=
  if TrimSpace name = "" then some Err.ErrInvalidInput
  else
    match validateEmail email with
    | some err => some err
    | none => if age ≤ 18 then some Err.ErrInvalidInput else none

/-! ## `internal/repository`, `internal/event`: the collaborators -/

/-- Go `repository.UserRepository` over a world state `σ`. A method that
returns `(*User, error)` yields `Except`; `Create` and `Update` receive a
pointer, so they yield the error together with the value the pointer holds
when they return. -/
structure UserRepository (σ : Type) where
  List : σ → Except Err (List User) × σ
  GetByID : Nat → σ → Except Err User × σ
  GetByEmail : String → σ → Except Err (Option User) × σ
  Create : User → σ → (Option Err × User) × σ
  Update : User → σ → (Option Err × User) × σ
  Delete : Nat → σ → Option Err × σ

/-- Go `repository.FileRepository` over a world state `σ`. -/
structure FileRepository (σ : Type) where
  ListByUser : Nat → σ → Except Err (List File) × σ
  Add : File → σ → (Option Err × File) × σ
  DeleteByUser : Nat → σ → Option Err × σ

/-- Go `event.Publisher` over a world state `σ`. -/
structure Publisher (σ : Type) where
  Publish : Event → σ → Option Err × σ

/-! ## `internal/service` -/

/-- Go `service.UserService`. The field `now` stands for the ambient
`time.Now().UTC()` the methods read. -/
structure UserService (σ : Type) where
  users : UserRepository σ
  files : FileRepository σ
  publisher : Publisher σ
  now : σ → Time

/-- Go `service.CreateUserInput`. -/
structure CreateUserInput where
  Name : String
  Email : String
  Age : Int
  deriving DecidableEq, Repr

/-- Go `service.UpdateUserInput`; a `nil` pointer is `none`. -/
structure UpdateUserInput where
  Name : Option String
  Email : Option String
  Age : Option Int
  deriving DecidableEq, Repr

/-- Go `service.FileInput`. -/
structure FileInput where
  Name : String
  Path : String
  deriving DecidableEq, Repr

variable {σ : Type}

/-- Go `UserService.ListUsers`. -/
def ListUsers (s : UserService σ) (w : σ) : Except Err (List User) × σ :=
  s.users.List w

/-- Go `UserService.GetUser`. -/
def GetUser (s : UserService σ) (id : Nat) (w : σ) : (User × Option Err) × σ :=
  match s.users.GetByID id w with
  | (.error err, w1) =>
    if err = Err.ErrNotFound then ((User.zero, some err), w1)
    else ((User.zero, some (Err.wrapped "get user" err)), w1)
  | (.ok user, w1) => ((user, none), w1)

/-- Go `UserService.CreateUser`. -/
def CreateUser (caseRanges : Char → Char) (s : UserService σ) (input : CreateUserInput)
    (w : σ) : (User × Option Err) × σ :=
  match validateUserInput input.Name input.Email input.Age with
  | some err => ((User.zero, some err), w)
  | none =>
    match s.users.GetByEmail (ToLower caseRanges input.Email) w with
    | (.error err, w1) => ((User.zero, some (Err.wrapped "check email" err)), w1)
    | (.ok (some _), w1) => ((User.zero, some Err.ErrConflict), w1)
    | (.ok none, w1) =>
      let user : User :=
        { User.zero with
          Name := TrimSpace input.Name
          Email := ToLower caseRanges (TrimSpace input.Email)
          Age := input.Age }
      match s.users.Create user w1 with
      | ((some err, _), w2) => ((User.zero, some (Err.wrapped "create user" err)), w2)
      | ((none, user), w2) =>
        let evt : Event :=
          { Type_ := EventType.UserCreated, UserID := user.ID, Payload := some user,
            OccurredAt := s.now w2 }
        match s.publisher.Publish evt w2 with
        | (some err, w3) => ((User.zero, some (Err.wrapped "publish user created" err)), w3)
        | (none, w3) => ((user, none), w3)

/-- Lines 100-102 of `UpdateUser`: the name, when provided, is trimmed and
assigned. -/
def updateName (input : UpdateUserInput) (user : User) : User :=
  match input.Name with
  | some name => { user with Name := TrimSpace name }
  | none => user

/-- Lines 103-116 of `UpdateUser`: the email, when provided, is normalized,
validated, looked up and assigned. -/
def updateEmail (caseRanges : Char → Char) (s : UserService σ) (input : UpdateUserInput)
    (user : User) (w : σ) : Except Err User × σ :=
  match input.Email with
  | none => (.ok user, w)
  | some raw =>
    let email := ToLower caseRanges (TrimSpace raw)
    match validateEmail email with
    | some err => (.error err, w)
    | none =>
      match s.users.GetByEmail email w with
      | (.error err, w1) => (.error (Err.wrapped "check email" err), w1)
      | (.ok existing, w1) =>
        match existing with
        | some e =>
          if e.ID ≠ user.ID then (.error Err.ErrConflict, w1)
          else (.ok { user with Email := email }, w1)
        | none => (.ok { user with Email := email }, w1)

/-- Lines 117-122 of `UpdateUser`: the age, when provided, must exceed 18 and
is assigned. -/
def updateAge (input : UpdateUserInput) (user : User) : Except Err User :=
  match input.Age with
  | none => .ok user
  | some age => if age ≤ 18 then .error Err.ErrInvalidInput else .ok { user with Age := age }

/-- Lines 124-137 of `UpdateUser`: persist, publish, return. -/
def updatePersist (s : UserService σ) (user : User) (w : σ) : (User × Option Err) × σ :=
  match s.users.Update user w with
  | ((some err, _), w1) => ((User.zero, some (Err.wrapped "update user" err)), w1)
  | ((none, user), w1) =>
    let evt : Event :=
      { Type_ := EventType.UserUpdated, UserID := user.ID, Payload := some user,
        OccurredAt := s.now w1 }
    match s.publisher.Publish evt w1 with
    | (some err, w2) => ((User.zero, some (Err.wrapped "publish user updated" err)), w2)
    | (none, w2) => ((user, none), w2)

/-- Go `UserService.UpdateUser`, as the sequence of its four blocks. -/
def UpdateUser (caseRanges : Char → Char) (s : UserService σ) (id : Nat)
    (input : UpdateUserInput) (w : σ) : (User × Option Err) × σ :=
  match s.users.GetByID id w with
  | (.error err, w1) => ((User.zero, some err), w1)
  | (.ok user, w1) =>
    match updateEmail caseRanges s input (updateName input user) w1 with
    | (.error err, w2) => ((User.zero, some err), w2)
    | (.ok user, w2) =>
      match updateAge input user with
      | .error err => ((User.zero, some err), w2)
      | .ok user => updatePersist s user w2

/-- Go `UserService.DeleteUser`. -/
def DeleteUser (s : UserService σ) (id : Nat) (w : σ) : Option Err × σ :=
  match s.users.Delete id w with
  | (some err, w1) => (some err, w1)
  | (none, w1) =>
    let evt : Event :=
      { Type_ := EventType.UserDeleted, UserID := id, Payload := none, OccurredAt := s.now w1 }
    match s.publisher.Publish evt w1 with
    | (some err, w2) => (some (Err.wrapped "publish user deleted" err), w2)
    | (none, w2) => (none, w2)

/-- Go `UserService.ListFiles`. -/
def ListFiles (s : UserService σ) (userID : Nat) (w : σ) : Except Err (List File) × σ :=
  match s.users.GetByID userID w with
  | (.error err, w1) => (.error err, w1)
  | (.ok _, w1) => s.files.ListByUser userID w1

/-- Go `UserService.AddFile`. -/
def AddFile (s : UserService σ) (userID : Nat) (input : FileInput) (w : σ) :
    (File × Option Err) × σ :=
  match s.users.GetByID userID w with
  | (.error err, w1) => ((File.zero, some err), w1)
  | (.ok _, w1) =>
    let file : File :=
      { File.zero with
        UserID := userID
        Name := TrimSpace input.Name
        Path := TrimSpace input.Path }
    if file.Name = "" ∨ file.Path = "" then ((File.zero, some Err.ErrInvalidInput), w1)
    else
      match s.files.Add file w1 with
      | ((some err, _), w2) => ((File.zero, some (Err.wrapped "add file" err)), w2)
      | ((none, file), w2) => ((file, none), w2)

/-- Go `UserService.DeleteFiles`. -/
def DeleteFiles (s : UserService σ) (userID : Nat) (w : σ) : Option Err × σ :=
  match s.users.GetByID userID w with
  | (.error err, w1) => (some err, w1)
  | (.ok _, w1) => s.files.DeleteByUser userID w1

/-! ## Recording the calls a service makes -/

/-- One call on a collaborator, with its argument. -/
inductive Call where
  | list
  | getByID (id : Nat)
  | getByEmail (email : String)
  | create (user : User)
  | update (user : User)
  | delete (id : Nat)
  | listByUser (userID : Nat)
  | add (file : File)
  | deleteByUser (userID : Nat)
  | publish (evt : Event)
  deriving DecidableEq, Repr

/-- Runs `f` on the first component of the world and appends `c` to the
call log held in the second. -/
def logged {α β : Type} (c : α → Call) (f : α → σ → β × σ) (a : α) (w : σ × List Call) :
    β × (σ × List Call) :=
  ((f a w.1).1, ((f a w.1).2, w.2 ++ [c a]))

/-- The service `s` with every collaborator call appended to a log. The
collaborators behave as in `s`; only the log is added. -/
def traced (s : UserService σ) : UserService (σ × List Call) where
  users :=
    { List := fun w => logged (fun _ => Call.list) (fun (_ : Unit) => s.users.List) () w
      GetByID := logged Call.getByID s.users.GetByID
      GetByEmail := logged Call.getByEmail s.users.GetByEmail
      Create := logged Call.create s.users.Create
      Update := logged Call.update s.users.Update
      Delete := logged Call.delete s.users.Delete }
  files :=
    { ListByUser := logged Call.listByUser s.files.ListByUser
      Add := logged Call.add s.files.Add
      DeleteByUser := logged Call.deleteByUser s.files.DeleteByUser }
  publisher := { Publish := logged Call.publish s.publisher.Publish }
  now := fun w => s.now w.1

/-! ## An in-memory persistence gateway

The two repository interfaces realised over in-memory tables. The methods
follow the queries of `storage/postgres/repository.go` (`First` is the first
row in primary-key order, `Create` takes the identifier from a sequence and
writes the stored row back through the pointer, `Delete` reports
`ErrNotFound` when no row is affected), with the tables as lists. The gateway
stores what it is given: the tables carry no constraint (no unique index, no
foreign key), `Update` writes every column it is handed, `Delete` removes the
row, and no method fails except with `ErrNotFound`. The column rules of the
ORM behind the Postgres repository (soft delete, zero-valued columns skipped
on update) are not part of this gateway. -/

/-- The tables, the two identifier sequences and the clock. -/
structure Store where
  users : List User
  files : List File
  nextUserID : Nat
  nextFileID : Nat
  clock : Time
  deriving DecidableEq, Repr

/-- The store of a fresh database: no rows, sequences at 1. -/
def Store.empty : Store :=
  { users := [], files := [], nextUserID := 1, nextFileID := 1, clock := 0 }

/-- The rows of the file table owned by `userID` (`WHERE user_id = ?`). -/
def Store.filesOf (st : Store) (userID : Nat) : List File :=
  st.files.filter (fun f => f.UserID = userID)

/-- A user row with its files loaded (`Preload("Files")`). -/
def Store.preload (st : Store) (u : User) : User :=
  { u with Files := st.filesOf u.ID }

/-- In-memory `UserRepository`. -/
def memUsers : UserRepository Store where
  List := fun st => (.ok (st.users.map st.preload), st)
  GetByID := fun id st =>
    match st.users.find? (fun u => u.ID = id) with
    | some u => (.ok (st.preload u), st)
    | none => (.error Err.ErrNotFound, st)
  GetByEmail := fun email st =>
    match st.users.find? (fun u => u.Email = email) with
    | some u => (.ok (some { u with Files := [] }), st)
    | none => (.ok none, st)
  Create := fun user st =>
    let row : User :=
      { user with
        ID := if user.ID = 0 then st.nextUserID else user.ID
        Files := []
        CreatedAt := if user.CreatedAt = 0 then st.clock else user.CreatedAt
        UpdatedAt := if user.UpdatedAt = 0 then st.clock else user.UpdatedAt }
    ((none, row),
      { st with
        users := st.users ++ [row]
        nextUserID := if user.ID = 0 then st.nextUserID + 1 else st.nextUserID })
  Update := fun user st =>
    ((none, user),
      { st with
        users := st.users.map (fun r =>
          if r.ID = user.ID then
            { r with Name := user.Name, Email := user.Email, Age := user.Age,
                     CreatedAt := user.CreatedAt, UpdatedAt := st.clock }
          else r) })
  Delete := fun id st =>
    if st.users.any (fun u => u.ID = id) then
      (none, { st with users := st.users.filter (fun u => u.ID ≠ id) })
    else (some Err.ErrNotFound, st)

/-- In-memory `FileRepository`. -/
def memFiles : FileRepository Store where
  ListByUser := fun userID st => (.ok (st.filesOf userID), st)
  Add := fun file st =>
    let row : File :=
      { file with
        ID := if file.ID = 0 then st.nextFileID else file.ID
        CreatedAt := if file.CreatedAt = 0 then st.clock else file.CreatedAt }
    ((none, row),
      { st with
        files := st.files ++ [row]
        nextFileID := if file.ID = 0 then st.nextFileID + 1 else st.nextFileID })
  DeleteByUser := fun userID st =>
    (none, { st with files := st.files.filter (fun f => f.UserID ≠ userID) })

/-- Go `event.InMemoryPublisher`: `Publish` appends the event and returns
`nil`. -/
def InMemoryPublisher : Publisher (List Event) where
  Publish := fun evt events => (none, events ++ [evt])

/-- Runs a store operation on the first component of a pair world. -/
def onStore {π α β : Type} (f : α → Store → β × Store) (a : α) (w : Store × π) :
    β × (Store × π) :=
  ((f a w.1).1, ((f a w.1).2, w.2))

/-- Go `NewUserService(repo, repo, publisher)` with the in-memory gateway:
the gateway works on the store, the publisher `p` on its own state `π`. -/
def memService {π : Type} (p : Publisher π) : UserService (Store × π) where
  users :=
    { List := fun w => onStore (fun (_ : Unit) => memUsers.List) () w
      GetByID := onStore memUsers.GetByID
      GetByEmail := onStore memUsers.GetByEmail
      Create := onStore memUsers.Create
      Update := onStore memUsers.Update
      Delete := onStore memUsers.Delete }
  files :=
    { ListByUser := onStore memFiles.ListByUser
      Add := onStore memFiles.Add
      DeleteByUser := onStore memFiles.DeleteByUser }
  publisher := { Publish := fun evt w => ((p.Publish evt w.2).1, (w.1, (p.Publish evt w.2).2)) }
  now := fun w => w.1.clock

/-! ## Sequences of service calls -/

/-- One call of a service operation, with its arguments. -/
inductive ServiceCall where
  | listUsers
  | getUser (id : Nat)
  | createUser (input : CreateUserInput)
  | updateUser (id : Nat) (input : UpdateUserInput)
  | deleteUser (id : Nat)
  | listFiles (userID : Nat)
  | addFile (userID : Nat) (input : FileInput)
  | deleteFiles (userID : Nat)
  deriving DecidableEq, Repr

/-- The world after one service call; the value returned to the caller is
dropped. -/
def runCall (caseRanges : Char → Char) (s : UserService σ) (c : ServiceCall) (w : σ) : σ :=
  match c with
  | .listUsers => (ListUsers s w).2
  | .getUser id => (GetUser s id w).2
  | .createUser input => (CreateUser caseRanges s input w).2
  | .updateUser id input => (UpdateUser caseRanges s id input w).2
  | .deleteUser id => (DeleteUser s id w).2
  | .listFiles userID => (ListFiles s userID w).2
  | .addFile userID input => (AddFile s userID input w).2
  | .deleteFiles userID => (DeleteFiles s userID w).2

/-- The world after a sequence of service calls, executed one at a time. -/
def runCalls (caseRanges : Char → Char) (s : UserService σ) (cs : List ServiceCall) (w : σ) : σ :=
  cs.foldl (fun w c => runCall caseRanges s c w) w

/-! ## Definitions used in the statements -/

/-- The inputs `validateUserInput` rejects, in the words of the source's three
checks. -/
def invalidUserInput (name email : String) (age : Int) : Prop :=
  TrimSpace name = "" ∨ TrimSpace email = "" ∨ Contains (TrimSpace email) "@" = false ∨ age ≤ 18

instance (name email : String) (age : Int) : Decidable (invalidUserInput name email age) := by
  unfold invalidUserInput; infer_instance

/-- A store holding one user, Jane, with email "jane@example.com". -/
def storeWithJane : Store :=
  { Store.empty with
    users := [{ User.zero with ID := 1, Name := "Jane", Email := "jane@example.com", Age := 30 }]
    nextUserID := 2 }

/-- A store holding Jane (identifier 1) and Bob (identifier 2). -/
def storeWithJaneAndBob : Store :=
  { Store.empty with
    users :=
      [{ User.zero with ID := 1, Name := "Jane", Email := "jane@example.com", Age := 30 },
       { User.zero with ID := 2, Name := "Bob", Email := "bob@example.com", Age := 40 }]
    nextUserID := 3 }

/-- A publisher whose `Publish` always returns an error. -/
def failingPublisher : Publisher Unit where
  Publish := fun _ _ => (some (Err.other "broker unreachable"), ())

/-- The store of Jane and Bob in which each owns one file. -/
def storeWithFiles : Store :=
  { storeWithJaneAndBob with
    files :=
      [{ ID := 1, UserID := 1, Name := "passport", Path := "/tmp/passport.pdf", CreatedAt := 0 },
       { ID := 2, UserID := 2, Name := "invoice", Path := "/tmp/invoice.pdf", CreatedAt := 0 }]
    nextFileID := 3 }

/-- The events one call is expected to add, as (type, user id) pairs, in the
words of the event rule: one `UserCreated`, `UserUpdated` or `UserDeleted`
event, carrying the identifier of the affected user, when a `CreateUser`,
`UpdateUser` or `DeleteUser` call returns no error; nothing for a call that
returns an error and nothing for the other five operations. -/
def expectedEvent (caseRanges : Char → Char) (s : UserService σ) (c : ServiceCall) (w : σ) :
    List (EventType × Nat) :=
  match c with
  | .createUser input =>
    match (CreateUser caseRanges s input w).1 with
    | (user, none) => [(EventType.UserCreated, user.ID)]
    | (_, some _) => []
  | .updateUser id input =>
    match (UpdateUser caseRanges s id input w).1.2 with
    | none => [(EventType.UserUpdated, id)]
    | some _ => []
  | .deleteUser id =>
    match (DeleteUser s id w).1 with
    | none => [(EventType.UserDeleted, id)]
    | some _ => []
  | _ => []

/-- The events a sequence of calls is expected to add, in call order. -/
def expectedEvents (caseRanges : Char → Char) (s : UserService σ) :
    List ServiceCall → σ → List (EventType × Nat)
  | [], _ => []
  | c :: cs, w =>
    expectedEvent caseRanges s c w ++ expectedEvents caseRanges s cs (runCall caseRanges s c w)

/-- The scenario of the end-to-end test: create Jane, set her age to 31, add a
file, delete her files, delete her. -/
def scenarioCalls : List ServiceCall :=
  [ServiceCall.createUser { Name := "Jane", Email := "jane@example.com", Age := 30 },
   ServiceCall.updateUser 1 { Name := none, Email := none, Age := some 31 },
   ServiceCall.addFile 1 { Name := "passport", Path := "/tmp/passport.pdf" },
   ServiceCall.deleteFiles 1,
   ServiceCall.deleteUser 1]

/-! ## `internal/transport/http/handler` -/

/-- Go `errors.Is` on the error values of the model: `err` is `target`, or
wraps an error that is. -/
def Err.Is (err target : Err) : Bool :=
  match err with
  | .wrapped ctx inner => decide (Err.wrapped ctx inner = target) || Err.Is inner target
  | e => decide (e = target)

/-- Go `statusForError`: a `switch` on the error value itself. -/
def statusForError (err : Err) : Nat :=
  match err with
  | Err.ErrInvalidInput => 400
  | Err.ErrConflict => 409
  | Err.ErrNotFound => 404
  | _ => 500

/-- Go `parseID`, that is `strconv.ParseUint(raw, 10, 64)`: a non-empty string
of decimal digits whose value fits 64 bits. -/
def parseID (raw : String) : Option Nat :=
  if raw.data ≠ [] ∧ raw.data.all (fun c => 0x30 ≤ c.toNat ∧ c.toNat ≤ 0x39) then
    let n := raw.data.foldl (fun acc c => 10 * acc + (c.toNat - 0x30)) 0
    if n < 2 ^ 64 then some n else none
  else none

/-- Go `UserHandler.listUsers`; a handler is modelled by the status code it
answers with. -/
def UserHandler.listUsers (s : UserService σ) (w : σ) : Nat × σ :=
  match ListUsers s w with
  | (.error _, w1) => (500, w1)
  | (.ok _, w1) => (200, w1)

/-- Go `UserHandler.getUser`. -/
def UserHandler.getUser (s : UserService σ) (rawID : String) (w : σ) : Nat × σ :=
  match parseID rawID with
  | none => (400, w)
  | some id =>
    match GetUser s id w with
    | ((_, some err), w1) => (statusForError err, w1)
    | ((_, none), w1) => (200, w1)

/-- Go `UserHandler.createUser`; `body` is the outcome of `ShouldBindJSON`,
`none` when it returns an error. -/
def UserHandler.createUser (caseRanges : Char → Char) (s : UserService σ)
    (body : Option CreateUserInput) (w : σ) : Nat × σ :=
  match body with
  | none => (400, w)
  | some input =>
    match CreateUser caseRanges s input w with
    | ((_, some err), w1) => (statusForError err, w1)
    | ((_, none), w1) => (201, w1)

/-- Go `UserHandler.updateUser`. -/
def UserHandler.updateUser (caseRanges : Char → Char) (s : UserService σ) (rawID : String)
    (body : Option UpdateUserInput) (w : σ) : Nat × σ :=
  match parseID rawID with
  | none => (400, w)
  | some id =>
    match body with
    | none => (400, w)
    | some input =>
      match UpdateUser caseRanges s id input w with
      | ((_, some err), w1) => (statusForError err, w1)
      | ((_, none), w1) => (200, w1)

/-- Go `UserHandler.deleteUser`. -/
def UserHandler.deleteUser (s : UserService σ) (rawID : String) (w : σ) : Nat × σ :=
  match parseID rawID with
  | none => (400, w)
  | some id =>
    match DeleteUser s id w with
    | (some err, w1) => (statusForError err, w1)
    | (none, w1) => (204, w1)

/-- Go `UserHandler.listFiles`. -/
def UserHandler.listFiles (s : UserService σ) (rawID : String) (w : σ) : Nat × σ :=
  match parseID rawID with
  | none => (400, w)
  | some id =>
    match ListFiles s id w with
    | (.error err, w1) => (statusForError err, w1)
    | (.ok _, w1) => (200, w1)

/-- Go `UserHandler.addFile`. -/
def UserHandler.addFile (s : UserService σ) (rawID : String) (body : Option FileInput)
    (w : σ) : Nat × σ :=
  match parseID rawID with
  | none => (400, w)
  | some id =>
    match body with
    | none => (400, w)
    | some input =>
      match AddFile s id input w with
      | ((_, some err), w1) => (statusForError err, w1)
      | ((_, none), w1) => (201, w1)

/-- Go `UserHandler.deleteFiles`. -/
def UserHandler.deleteFiles (s : UserService σ) (rawID : String) (w : σ) : Nat × σ :=
  match parseID rawID with
  | none => (400, w)
  | some id =>
    match DeleteFiles s id w with
    | (some err, w1) => (statusForError err, w1)
    | (none, w1) => (204, w1)

/-- A request on one of the eight routes `RegisterRoutes` declares, with the
`:id` path parameter as sent and the outcome of the JSON binding. -/
inductive ApiRequest where
  | listUsers
  | getUser (rawID : String)
  | createUser (body : Option CreateUserInput)
  | updateUser (rawID : String) (body : Option UpdateUserInput)
  | deleteUser (rawID : String)
  | listFiles (rawID : String)
  | addFile (rawID : String) (body : Option FileInput)
  | deleteFiles (rawID : String)
  deriving DecidableEq, Repr

/-- Go `UserHandler.RegisterRoutes`: the handler of each route. -/
def UserHandler.handle (caseRanges : Char → Char) (s : UserService σ) (req : ApiRequest)
    (w : σ) : Nat × σ :=
  match req with
  | .listUsers => UserHandler.listUsers s w
  | .getUser rawID => UserHandler.getUser s rawID w
  | .createUser body => UserHandler.createUser caseRanges s body w
  | .updateUser rawID body => UserHandler.updateUser caseRanges s rawID body w
  | .deleteUser rawID => UserHandler.deleteUser s rawID w
  | .listFiles rawID => UserHandler.listFiles s rawID w
  | .addFile rawID body => UserHandler.addFile s rawID body w
  | .deleteFiles rawID => UserHandler.deleteFiles s rawID w

/-- The service call a request leads to, when its identifier parses and its
body binds. -/
def ApiRequest.call (req : ApiRequest) : Option ServiceCall :=
  match req with
  | .listUsers => some ServiceCall.listUsers
  | .getUser rawID => (parseID rawID).map ServiceCall.getUser
  | .createUser body => body.map ServiceCall.createUser
  | .updateUser rawID body =>
    match parseID rawID, body with
    | some id, some input => some (ServiceCall.updateUser id input)
    | _, _ => none
  | .deleteUser rawID => (parseID rawID).map ServiceCall.deleteUser
  | .listFiles rawID => (parseID rawID).map ServiceCall.listFiles
  | .addFile rawID body =>
    match parseID rawID, body with
    | some id, some input => some (ServiceCall.addFile id input)
    | _, _ => none
  | .deleteFiles rawID => (parseID rawID).map ServiceCall.deleteFiles

/-- The error a service call returns, `none` when it returns `nil`. -/
def callError (caseRanges : Char → Char) (s : UserService σ) (c : ServiceCall) (w : σ) :
    Option Err :=
  match c with
  | .listUsers => match (ListUsers s w).1 with | .error err => some err | .ok _ => none
  | .getUser id => (GetUser s id w).1.2
  | .createUser input => (CreateUser caseRanges s input w).1.2
  | .updateUser id input => (UpdateUser caseRanges s id input w).1.2
  | .deleteUser id => (DeleteUser s id w).1
  | .listFiles userID => match (ListFiles s userID w).1 with | .error err => some err | .ok _ => none
  | .addFile userID input => (AddFile s userID input w).1.2
  | .deleteFiles userID => (DeleteFiles s userID w).1

/-! ## Recording which calls fail -/

/-- Runs `f` on the first component of the world and appends to the log the
call together with whether it returned an error. -/
def loggedErr {α β : Type} (c : α → Call) (failed : β → Bool) (f : α → σ → β × σ) (a : α)
    (w : σ × List (Call × Bool)) : β × (σ × List (Call × Bool)) :=
  ((f a w.1).1, ((f a w.1).2, w.2 ++ [(c a, failed (f a w.1).1)]))

/-- Whether a result of type `(T, error)` or `error` carries an error. -/
def exceptFailed {α : Type} (r : Except Err α) : Bool :=
  match r with
  | .error _ => true
  | .ok _ => false

/-- The service `s` with every collaborator call, and whether it returned an
error, appended to a log. The collaborators behave as in `s`. -/
def tracedErr (s : UserService σ) : UserService (σ × List (Call × Bool)) where
  users :=
    { List := fun w =>
        loggedErr (fun _ => Call.list) exceptFailed (fun (_ : Unit) => s.users.List) () w
      GetByID := loggedErr Call.getByID exceptFailed s.users.GetByID
      GetByEmail := loggedErr Call.getByEmail exceptFailed s.users.GetByEmail
      Create := loggedErr Call.create (fun r => r.1.isSome) s.users.Create
      Update := loggedErr Call.update (fun r => r.1.isSome) s.users.Update
      Delete := loggedErr Call.delete Option.isSome s.users.Delete }
  files :=
    { ListByUser := loggedErr Call.listByUser exceptFailed s.files.ListByUser
      Add := loggedErr Call.add (fun r => r.1.isSome) s.files.Add
      DeleteByUser := loggedErr Call.deleteByUser Option.isSome s.files.DeleteByUser }
  publisher := { Publish := loggedErr Call.publish Option.isSome s.publisher.Publish }
  now := fun w => s.now w.1

/-- The rule "no error is swallowed" on the log of one operation: a call that
returned an error is the last call of the operation, and the operation
returned an error. -/
def errorsSurface (log : List (Call × Bool)) (operationFailed : Bool) : Prop :=
  ∀ pre c post, log = pre ++ (c, true) :: post → post = [] ∧ operationFailed = true

/-- The same rule as a check on the log: every call but the last returned no
error, and if the last one did, so did the operation. -/
def errorsSurfaceCheck : List (Call × Bool) → Bool → Bool
  | [], _ => true
  | [(_, failed)], operationFailed => !failed || operationFailed
  | (_, failed) :: rest, operationFailed => !failed && errorsSurfaceCheck rest operationFailed

/-! ## `internal/storage/postgres`

`Repository` over an in-memory image of the two tables. The methods are those
of `repository.go`; each ORM call is replaced by what the ORM documents for
it on models that embed `gorm.Model`:

* every query and update carries `deleted_at IS NULL`;
* `Delete` is a soft delete: it sets `deleted_at` on the matching rows and
  removes none, so the `ON DELETE CASCADE` foreign key of the file table,
  which fires when a user row is removed, does not fire;
* `Updates` with a struct writes the non-zero fields only, and sets
  `updated_at`;
* `Create` takes a zero identifier from the sequence and fills zero
  timestamps with the current time;
* the primary keys, the unique index on `email` and the foreign key
  `file_models.user_id` reject a statement with a driver error. -/

/-- Go `FileModel`, with the columns of the embedded `gorm.Model`. -/
structure FileModel where
  ID : Nat
  CreatedAt : Time
  UpdatedAt : Time
  DeletedAt : Option Time
  UserID : Nat
  Name : String
  Path : String
  deriving DecidableEq, Repr

/-- Go `UserModel`, with the columns of the embedded `gorm.Model`; `Files` is
the association `Preload` fills, not a column. -/
structure UserModel where
  ID : Nat
  CreatedAt : Time
  UpdatedAt : Time
  DeletedAt : Option Time
  Name : String
  Email : String
  Age : Int
  Files : List FileModel
  deriving DecidableEq, Repr

/-- Go `FileModel.toDomain`. -/
def FileModel.toDomain (f : FileModel) : File :=
  { ID := f.ID, UserID := f.UserID, Name := f.Name, Path := f.Path, CreatedAt := f.CreatedAt }

/-- Go `UserModel.toDomain`. -/
def UserModel.toDomain (u : UserModel) : User :=
  { ID := u.ID, Name := u.Name, Email := u.Email, Age := u.Age,
    Files := u.Files.map FileModel.toDomain, CreatedAt := u.CreatedAt, UpdatedAt := u.UpdatedAt }

/-- Go `fromDomain`. -/
def fromDomain (u : User) : UserModel :=
  { ID := u.ID, CreatedAt := u.CreatedAt, UpdatedAt := u.UpdatedAt, DeletedAt := none,
    Name := u.Name, Email := u.Email, Age := u.Age, Files := [] }

/-- Go `fileModelFromDomain`. -/
def fileModelFromDomain (f : File) : FileModel :=
  { ID := f.ID, CreatedAt := f.CreatedAt, UpdatedAt := 0, DeletedAt := none,
    UserID := f.UserID, Name := f.Name, Path := f.Path }

/-- The two tables, their identifier sequences and the clock of the
database. -/
structure Database where
  user_models : List UserModel
  file_models : List FileModel
  userSeq : Nat
  fileSeq : Nat
  clock : Time
  deriving DecidableEq, Repr

/-- The database after `AutoMigrate` on an empty schema. -/
def Database.empty : Database :=
  { user_models := [], file_models := [], userSeq := 1, fileSeq := 1, clock := 0 }

/-- The file rows a query sees for `userID`: `user_id = ?` and
`deleted_at IS NULL`. -/
def Database.visibleFiles (db : Database) (userID : Nat) : List FileModel :=
  db.file_models.filter (fun f => f.UserID = userID ∧ f.DeletedAt = none)

/-- A user row with its association loaded (`Preload("Files")`). -/
def Database.preload (db : Database) (u : UserModel) : UserModel :=
  { u with Files := db.visibleFiles u.ID }

/-- Go `Repository.GetByID`. -/
def Repository.GetByID (id : Nat) (db : Database) : Except Err User × Database :=
  match db.user_models.find? (fun u => u.ID = id ∧ u.DeletedAt = none) with
  | some model => (.ok (db.preload model).toDomain, db)
  | none => (.error Err.ErrNotFound, db)

/-- Go `Repository.GetByEmail`. -/
def Repository.GetByEmail (email : String) (db : Database) :
    Except Err (Option User) × Database :=
  match db.user_models.find? (fun u => u.Email = email ∧ u.DeletedAt = none) with
  | some model => (.ok (some model.toDomain), db)
  | none => (.ok none, db)

/-- Go `Repository.Create`. -/
def Repository.Create (user : User) (db : Database) : (Option Err × User) × Database :=
  let model := fromDomain user
  let row : UserModel :=
    { model with
      ID := if model.ID = 0 then db.userSeq else model.ID
      CreatedAt := if model.CreatedAt = 0 then db.clock else model.CreatedAt
      UpdatedAt := if model.UpdatedAt = 0 then db.clock else model.UpdatedAt }
  if db.user_models.any (fun u => u.ID = row.ID) then
    ((some (Err.other "duplicate key value violates unique constraint (primary key)"), user), db)
  else if db.user_models.any (fun u => u.Email = row.Email) then
    ((some (Err.other "duplicate key value violates unique constraint (email)"), user), db)
  else
    ((none, row.toDomain),
      { db with
        user_models := db.user_models ++ [row]
        userSeq := if model.ID = 0 then db.userSeq + 1 else db.userSeq })

/-- The row after `Updates(model)`: the non-zero fields of `model` are
written, `updated_at` is set. -/
def applyUpdates (clock : Time) (model row : UserModel) : UserModel :=
  { row with
    ID := if model.ID = 0 then row.ID else model.ID
    CreatedAt := if model.CreatedAt = 0 then row.CreatedAt else model.CreatedAt
    UpdatedAt := clock
    Name := if model.Name = "" then row.Name else model.Name
    Email := if model.Email = "" then row.Email else model.Email
    Age := if model.Age = 0 then row.Age else model.Age }

/-- Go `Repository.Update`. -/
def Repository.Update (user : User) (db : Database) : (Option Err × User) × Database :=
  let model : UserModel := { fromDomain user with ID := user.ID }
  if user.ID = 0 then
    ((some (Err.other "WHERE conditions required"), user), db)
  else if model.Email ≠ "" ∧
      db.user_models.any (fun u => u.ID = user.ID ∧ u.DeletedAt = none) ∧
      db.user_models.any (fun u => u.Email = model.Email ∧ u.ID ≠ user.ID) then
    ((some (Err.other "duplicate key value violates unique constraint (email)"), user), db)
  else
    ((none, user),
      { db with
        user_models := db.user_models.map (fun row =>
          if row.ID = user.ID ∧ row.DeletedAt = none then applyUpdates db.clock model row
          else row) })

/-- Go `Repository.Delete`. -/
def Repository.Delete (id : Nat) (db : Database) : Option Err × Database :=
  let rowsAffected := (db.user_models.filter (fun u => u.ID = id ∧ u.DeletedAt = none)).length
  let db1 : Database :=
    { db with
      user_models := db.user_models.map (fun row =>
        if row.ID = id ∧ row.DeletedAt = none then { row with DeletedAt := some db.clock }
        else row) }
  if rowsAffected = 0 then (some Err.ErrNotFound, db1) else (none, db1)

/-- Go `Repository.ListByUser`. -/
def Repository.ListByUser (userID : Nat) (db : Database) : Except Err (List File) × Database :=
  (.ok ((db.visibleFiles userID).map FileModel.toDomain), db)

/-- Go `Repository.Add`. -/
def Repository.Add (file : File) (db : Database) : (Option Err × File) × Database :=
  let model := fileModelFromDomain file
  let row : FileModel :=
    { model with
      ID := if model.ID = 0 then db.fileSeq else model.ID
      CreatedAt := if model.CreatedAt = 0 then db.clock else model.CreatedAt
      UpdatedAt := db.clock }
  if db.file_models.any (fun f => f.ID = row.ID) then
    ((some (Err.other "duplicate key value violates unique constraint (primary key)"), file), db)
  else if ¬ db.user_models.any (fun u => u.ID = row.UserID) then
    ((some (Err.other "insert violates foreign key constraint (user_id)"), file), db)
  else
    ((none, row.toDomain),
      { db with
        file_models := db.file_models ++ [row]
        fileSeq := if model.ID = 0 then db.fileSeq + 1 else db.fileSeq })

/-- Go `Repository.DeleteByUser`. -/
def Repository.DeleteByUser (userID : Nat) (db : Database) : Option Err × Database :=
  (none,
    { db with
      file_models := db.file_models.map (fun row =>
        if row.UserID = userID ∧ row.DeletedAt = none then
          { row with DeletedAt := some db.clock }
        else row) })

/-- Go `Repository.List`. -/
def Repository.List (db : Database) : Except Err (List User) × Database :=
  (.ok (((db.user_models.filter (fun u => u.DeletedAt = none)).map db.preload).map
    UserModel.toDomain), db)

/-- Runs a repository method on the first component of a pair world. -/
def onDatabase {π α β : Type} (f : α → Database → β × Database) (a : α) (w : Database × π) :
    β × (Database × π) :=
  ((f a w.1).1, ((f a w.1).2, w.2))

/-- Go `NewUserService(repo, repo, publisher)` with the Postgres repository
and a publisher `p` that works on its own state `π`. -/
def pgService {π : Type} (p : Publisher π) : UserService (Database × π) where
  users :=
    { List := fun w => onDatabase (fun (_ : Unit) => Repository.List) () w
      GetByID := onDatabase Repository.GetByID
      GetByEmail := onDatabase Repository.GetByEmail
      Create := onDatabase Repository.Create
      Update := onDatabase Repository.Update
      Delete := onDatabase Repository.Delete }
  files :=
    { ListByUser := onDatabase Repository.ListByUser
      Add := onDatabase Repository.Add
      DeleteByUser := onDatabase Repository.DeleteByUser }
  publisher := { Publish := fun evt w => ((p.Publish evt w.2).1, (w.1, (p.Publish evt w.2).2)) }
  now := fun w => w.1.clock

/-- A database in which Jane (identifier 1) is stored and owns one file. -/
def databaseWithJane : Database :=
  { Database.empty with
    user_models :=
      [{ ID := 1, CreatedAt := 5, UpdatedAt := 5, DeletedAt := none, Name := "Jane",
         Email := "jane@example.com", Age := 30, Files := [] }]
    file_models :=
      [{ ID := 1, CreatedAt := 6, UpdatedAt := 6, DeletedAt := none, UserID := 1,
         Name := "passport", Path := "/tmp/passport.pdf" }]
    userSeq := 2
    fileSeq := 2
    clock := 9 }

/-! ## `internal/transport/http`: the auth middleware and the router -/

/-- Go `strings.HasPrefix`. -/
def HasPrefix (s pre : String) : Bool :=
  pre.data.isPrefixOf s.data

/-- Go `strings.TrimPrefix`. -/
def TrimPrefix (s pre : String) : String :=
  if HasPrefix s pre then ⟨s.data.drop pre.data.length⟩ else s

/-- Go `middleware.Auth.Handler`. The result is the status the middleware
aborts with, or `none` when it calls `c.Next()`. `authorization` is the
request header, `none` when absent (`c.GetHeader` then returns ""). The
parameter `jwtValid secret token` stands for `jwt.Parse(token, keyFunc)`
returning no error and a valid token, with a key function that returns
`secret`. -/
def Auth.Handler (jwtValid : String → String → Bool) (secret : String)
    (authorization : Option String) : Option Nat :=
  let auth := authorization.getD ""
  if auth = "" ∨ ¬ HasPrefix auth "Bearer " then some 401
  else
    let tokenString := TrimPrefix auth "Bearer "
    if jwtValid secret tokenString = false then some 401
    else none

/-- Go `handler.loginRequest`. -/
structure loginRequest where
  Username : String
  Password : String
  deriving DecidableEq, Repr

/-- Go `handler.AuthHandler`, without the token lifetime. -/
structure AuthHandler where
  secret : String
  adminUser : String
  adminPass : String
  deriving DecidableEq, Repr

/-- Go `AuthHandler.Login`, by the status it answers with. `body` is the
outcome of `ShouldBindJSON` and `signed` the outcome of `SignedString`, each
`none` when it returns an error. -/
def AuthHandler.Login (h : AuthHandler) (body : Option loginRequest) (signed : Option String) :
    Nat :=
  match body with
  | none => 400
  | some req =>
    if req.Username ≠ h.adminUser ∨ req.Password ≠ h.adminPass then 401
    else
      match signed with
      | none => 500
      | some _ => 200

/-- A request the router has a route for: `POST /auth/login`, or one of the
eight routes of the group `/api/v1`. -/
inductive RoutedRequest where
  | login (body : Option loginRequest)
  | api (req : ApiRequest)
  deriving DecidableEq, Repr

/-- Go `NewRouter`, by what the engine it builds does with a routed request.
The login route runs `Login`. The routes of the group `/api/v1` run the auth
middleware first; when it aborts, the chain stops and its status is the
answer, otherwise the user handler runs. The recovery and logging middleware
do not change the answer and are left out. -/
def NewRouter (jwtValid : String → String → Bool) (secret : String) (auth : AuthHandler)
    (signed : Option String) (caseRanges : Char → Char) (s : UserService σ)
    (req : RoutedRequest) (authorization : Option String) (w : σ) : Nat × σ :=
  match req with
  | .login body => (auth.Login body signed, w)
  | .api r =>
    match Auth.Handler jwtValid secret authorization with
    | some status => (status, w)
    | none => UserHandler.handle caseRanges s r w

/-! ## `internal/config` -/

/-- Go `strconv.Atoi` on a 64-bit platform: an optional sign followed by at
least one decimal digit, with a value that fits `int`; `none` stands for a
non-nil error. -/
def Atoi (s : String) : Option Int :=
  let signed : Bool × List Char :=
    match s.data with
    | '-' :: rest => (true, rest)
    | '+' :: rest => (false, rest)
    | rest => (false, rest)
  if signed.2 ≠ [] ∧ signed.2.all (fun c => 0x30 ≤ c.toNat ∧ c.toNat ≤ 0x39) then
    let n : Int := signed.2.foldl (fun acc c => 10 * acc + ((c.toNat : Int) - 0x30)) 0
    let v : Int := if signed.1 then -n else n
    if -(2 : Int) ^ 63 ≤ v ∧ v ≤ (2 : Int) ^ 63 - 1 then some v else none
  else none

/-- The value of a Go `int64` expression whose mathematical value is `x`:
arithmetic wraps around. -/
def wrapInt64 (x : Int) : Int :=
  (x + (2 : Int) ^ 63) % (2 : Int) ^ 64 - (2 : Int) ^ 63

/-- Go `time.Minute`, in nanoseconds. -/
def Minute : Int := 60 * 1000000000

/-- Go `durationOrDefault`. `env` is what `os.Getenv(key)` returns, "" when
the variable is unset; durations are `int64` nanoseconds. -/
def durationOrDefault (env : String) (default : Int) : Int :=
  if env ≠ "" then
    match Atoi env with
    | some minutes => if minutes > 0 then wrapInt64 (minutes * Minute) else default
    | none => default
  else default

/-! ## Facts about validation -/

theorem validateEmail_eq_none (email : String) :
    validateEmail email = none ↔
      TrimSpace email ≠ "" ∧ Contains (TrimSpace email) "@" = true := by
  unfold validateEmail
  by_cases h1 : TrimSpace email = "" <;> by_cases h2 : Contains (TrimSpace email) "@" = true <;>
    simp [h1, h2]

theorem validateEmail_eq_some (email : String) (err : Err) (h : validateEmail email = some err) :
    err = Err.ErrInvalidInput := by
  simp only [validateEmail] at h
  split at h <;> simp at h
  exact h.symm

theorem validateUserInput_eq_none (name email : String) (age : Int) :
    validateUserInput name email age = none ↔ ¬ invalidUserInput name email age := by
  unfold validateUserInput invalidUserInput
  by_cases h1 : TrimSpace name = ""
  · simp [h1]
  · cases hv : validateEmail email with
    | some err =>
      have hn : ¬ (TrimSpace email ≠ "" ∧ Contains (TrimSpace email) "@" = true) := by
        rw [← validateEmail_eq_none, hv]; simp
      simp only [h1, if_false, false_or]
      constructor
      · intro h; cases h
      · intro h; exfalso; apply hn
        constructor
        · intro he; exact h (Or.inl he)
        · by_contra hc; exact h (Or.inr (Or.inl (by simpa using hc)))
    | none =>
      have hn := (validateEmail_eq_none email).1 hv
      simp [h1, hn.1, hn.2]

theorem validateUserInput_eq_some (name email : String) (age : Int) (err : Err)
    (h : validateUserInput name email age = some err) : err = Err.ErrInvalidInput := by
  unfold validateUserInput at h
  split at h
  · simp at h; exact h.symm
  · cases hv : validateEmail email with
    | some e =>
      rw [hv] at h; simp at h
      rw [← h]; exact validateEmail_eq_some email e hv
    | none =>
      rw [hv] at h; simp at h
      exact h.2.symm

theorem validateUserInput_invalid (name email : String) (age : Int)
    (h : invalidUserInput name email age) :
    validateUserInput name email age = some Err.ErrInvalidInput := by
  cases hv : validateUserInput name email age with
  | none => exact absurd h ((validateUserInput_eq_none name email age).1 hv)
  | some err => rw [validateUserInput_eq_some name email age err hv]

/-! ## C1 -/

/-- C1: `CreateUser` returns `ErrInvalidInput` exactly when the trimmed name
is empty, or the trimmed email is empty or contains no "@", or `age <= 18`
(18 is rejected, 19 is not); and in that case, whatever the gateway and the
publisher are, it returns before any collaborator call: the world and the
call log are those it started from. -/
theorem C1_createUser_invalid_input (caseRanges : Char → Char) (s : UserService σ)
    (input : CreateUserInput) (w : σ) (log : List Call) :
    ((CreateUser caseRanges s input w).1.2 = some Err.ErrInvalidInput ↔
        invalidUserInput input.Name input.Email input.Age) ∧
    (invalidUserInput input.Name input.Email input.Age →
        CreateUser caseRanges (traced s) input (w, log)
          = ((User.zero, some Err.ErrInvalidInput), (w, log))) ∧
    validateUserInput input.Name input.Email 18 = some Err.ErrInvalidInput ∧
    (validateUserInput input.Name input.Email 19 = none ↔
        TrimSpace input.Name ≠ "" ∧ validateEmail input.Email = none) := by
  refine ⟨⟨?_, ?_⟩, ?_, ?_, ?_⟩
  · intro h
    by_contra hv
    have hn := (validateUserInput_eq_none _ _ _).2 hv
    unfold CreateUser at h
    rw [hn] at h
    simp only at h
    split at h
    · simp at h
    · simp at h
    · split at h
      · simp at h
      · split at h <;> simp at h
  · intro h
    unfold CreateUser
    rw [validateUserInput_invalid _ _ _ h]
  · intro h
    unfold CreateUser
    rw [validateUserInput_invalid _ _ _ h]
  · exact validateUserInput_invalid _ _ _ (Or.inr (Or.inr (Or.inr (le_refl 18))))
  · rw [validateUserInput_eq_none, validateEmail_eq_none]
    unfold invalidUserInput
    simp

/-- C1, applied: name "John", email "john@example.com", age 18, against the
in-memory gateway and publisher. -/
theorem C1_createUser_invalid_input_witness :
    CreateUser id (traced (memService InMemoryPublisher))
        { Name := "John", Email := "john@example.com", Age := 18 } ((Store.empty, []), [])
      = ((User.zero, some Err.ErrInvalidInput), ((Store.empty, []), [])) :=
  (C1_createUser_invalid_input id (memService InMemoryPublisher)
    { Name := "John", Email := "john@example.com", Age := 18 } (Store.empty, []) []).2.1
    (by decide)

/-! ## C2 -/

/-- C2, at the failing input: Jane is stored with email "jane@example.com";
`CreateUser` with email " jane@example.com" (one leading blank) passes
validation, asks the gateway for " jane@example.com", finds nothing, and
creates a second user with the email "jane@example.com" instead of returning
`ErrConflict`. -/
theorem C2_createUser_lookup_not_trimmed (caseRanges : Char → Char) :
    CreateUser caseRanges (traced (memService InMemoryPublisher))
        { Name := "John", Email := " jane@example.com", Age := 25 } ((storeWithJane, []), [])
      = (({ User.zero with ID := 2, Name := "John", Email := "jane@example.com", Age := 25 }, none),
         (({ storeWithJane with
              users := storeWithJane.users ++
                [{ User.zero with ID := 2, Name := "John", Email := "jane@example.com", Age := 25 }]
              nextUserID := 3 },
           [{ Type_ := EventType.UserCreated, UserID := 2,
              Payload := some { User.zero with
                ID := 2, Name := "John", Email := "jane@example.com", Age := 25 },
              OccurredAt := 0 }]),
          [Call.getByEmail " jane@example.com",
           Call.create { User.zero with Name := "John", Email := "jane@example.com", Age := 25 },
           Call.publish
             { Type_ := EventType.UserCreated, UserID := 2,
               Payload := some { User.zero with
                 ID := 2, Name := "John", Email := "jane@example.com", Age := 25 },
               OccurredAt := 0 }])) := by
  rfl

/-! ## C4 -/

/-- C4, at the failing sequence: from the empty store, against the in-memory
gateway (no uniqueness constraint), `CreateUser` with email
"jane@example.com" followed by `CreateUser` with email " jane@example.com"
leaves two stored users, with identifiers 1 and 2, that both have the email
"jane@example.com". -/
theorem C4_two_creates_share_an_email (caseRanges : Char → Char) :
    ((runCalls caseRanges (memService InMemoryPublisher)
        [ServiceCall.createUser { Name := "Jane", Email := "jane@example.com", Age := 30 },
         ServiceCall.createUser { Name := "John", Email := " jane@example.com", Age := 25 }]
        (Store.empty, [])).1.users.map (fun u => (u.ID, u.Email)))
      = [(1, "jane@example.com"), (2, "jane@example.com")] := by
  rfl

/-! ## Facts about `TrimSpace`, `ToLower`, `Contains` -/

theorem TrimSpace_data (s : String) : (TrimSpace s).data = trimRunes s.data := rfl

theorem ToLower_data (caseRanges : Char → Char) (s : String) :
    (ToLower caseRanges s).data = s.data.map (unicodeToLower caseRanges) := rfl

theorem Contains_at (s : String) : Contains s "@" = true ↔ '@' ∈ s.data := by
  unfold Contains
  simp only [decide_eq_true_eq]
  show ['@'] <:+: s.data ↔ _
  constructor
  · rintro ⟨l, r, h⟩
    rw [← h]; simp
  · intro h
    obtain ⟨l, r, e⟩ := List.append_of_mem h
    exact ⟨l, r, by simp [e]⟩

theorem toNat_ofNat_small (n : Nat) (h : n < 0xD800) : (Char.ofNat n).toNat = n := by
  unfold Char.ofNat
  have hv : n.isValidChar := Or.inl h
  simp only [hv, dite_true]
  rfl

theorem isSpace_false_of_graphic (c : Char) (h1 : 0x21 ≤ c.toNat) (h2 : c.toNat ≤ 0x7F) :
    isSpace c = false := by
  unfold isSpace
  simp only [Bool.or_eq_false_iff, Bool.and_eq_false_iff, decide_eq_false_iff_not,
    Bool.decide_eq_false]
  simp
  omega

/-- When the table maps white space to white space and nothing else to it,
`unicode.ToLower` does too: its ASCII branch only moves letters. -/
theorem isSpace_unicodeToLower (caseRanges : Char → Char)
    (hcr : ∀ c, isSpace (caseRanges c) = isSpace c) (c : Char) :
    isSpace (unicodeToLower caseRanges c) = isSpace c := by
  unfold unicodeToLower
  split
  · split
    · have e : (Char.ofNat (c.toNat + 0x20)).toNat = c.toNat + 0x20 :=
        toNat_ofNat_small _ (by omega)
      rw [isSpace_false_of_graphic c (by omega) (by omega),
        isSpace_false_of_graphic _ (by omega) (by omega)]
    · rfl
  · exact hcr c

theorem dropWhile_isSpace_map (f : Char → Char) (hf : ∀ c, isSpace (f c) = isSpace c)
    (d : List Char) : (d.map f).dropWhile isSpace = (d.dropWhile isSpace).map f := by
  rw [List.dropWhile_map]
  have : isSpace ∘ f = isSpace := funext hf
  rw [this]

theorem trimRunes_map (f : Char → Char) (hf : ∀ c, isSpace (f c) = isSpace c)
    (d : List Char) : trimRunes (d.map f) = (trimRunes d).map f := by
  unfold trimRunes
  rw [dropWhile_isSpace_map f hf, ← List.map_reverse, dropWhile_isSpace_map f hf,
    List.map_reverse]

/-- Trimming and lower-casing commute. -/
theorem TrimSpace_ToLower (caseRanges : Char → Char)
    (hcr : ∀ c, isSpace (caseRanges c) = isSpace c) (s : String) :
    TrimSpace (ToLower caseRanges s) = ToLower caseRanges (TrimSpace s) := by
  apply String.ext
  rw [TrimSpace_data, ToLower_data, ToLower_data, TrimSpace_data]
  exact trimRunes_map _ (isSpace_unicodeToLower caseRanges hcr) _

theorem mem_dropWhile_of_not (p : Char → Bool) (c : Char) (hc : p c = false) (d : List Char)
    (h : c ∈ d) : c ∈ d.dropWhile p := by
  induction d with
  | nil => cases h
  | cons a t ih =>
    rw [List.dropWhile_cons]
    split
    · rename_i hp
      rcases List.mem_cons.1 h with e | e
      · rw [← e, hc] at hp; cases hp
      · exact ih e
    · exact h

theorem mem_trimRunes (c : Char) (hc : isSpace c = false) (d : List Char) :
    c ∈ trimRunes d ↔ c ∈ d := by
  unfold trimRunes
  constructor
  · intro h
    rw [List.mem_reverse] at h
    have h2 := (List.dropWhile_sublist isSpace).subset h
    rw [List.mem_reverse] at h2
    exact (List.dropWhile_sublist isSpace).subset h2
  · intro h
    rw [List.mem_reverse]
    apply mem_dropWhile_of_not isSpace c hc
    rw [List.mem_reverse]
    exact mem_dropWhile_of_not isSpace c hc d h

/-- An email that contains "@" passes `validateEmail`, trimmed or not: "@" is
not white space, so trimming keeps it. -/
theorem validateEmail_eq_none_iff_contains (email : String) :
    validateEmail email = none ↔ Contains email "@" = true := by
  rw [validateEmail_eq_none, Contains_at, Contains_at, TrimSpace_data,
    mem_trimRunes '@' (by decide)]
  constructor
  · exact fun h => h.2
  · intro h
    refine ⟨?_, h⟩
    intro he
    have hm : '@' ∈ (TrimSpace email).data := by
      rw [TrimSpace_data, mem_trimRunes '@' (by decide)]; exact h
    rw [he] at hm
    cases hm

/-! ## C3 -/

/-- In a store whose emails are trimmed, no row is found under the
lower-cased input email when none has the normalized email. -/
theorem find_lowered_email_none (caseRanges : Char → Char)
    (hcr : ∀ c, isSpace (caseRanges c) = isSpace c) (st : Store) (email : String)
    (hnorm : ∀ u ∈ st.users, TrimSpace u.Email = u.Email)
    (hfresh : ∀ u ∈ st.users, u.Email ≠ ToLower caseRanges (TrimSpace email)) :
    st.users.find? (fun u => u.Email = ToLower caseRanges email) = none := by
  rw [List.find?_eq_none]
  intro u hu he
  have he : u.Email = ToLower caseRanges email := by simpa using he
  apply hfresh u hu
  rw [← TrimSpace_ToLower caseRanges hcr, ← he, hnorm u hu]

/-- C3: against the in-memory gateway, in a store whose emails are trimmed
and whose identifier sequence is positive, `CreateUser` with an input that
passes validation and whose normalized email no stored user has, with the
publisher accepting the event, returns without error the user the gateway
created: identifier taken from the sequence (non-zero), name the trimmed input
name, email the trimmed lower-cased input email, age the input age. The store
gains exactly that user, and the calls made are one lookup, one `Create` and
one `Publish`, of a `UserCreated` event with the returned identifier and the
returned user as payload. -/
theorem C3_createUser_success {π : Type} (caseRanges : Char → Char)
    (hcr : ∀ c, isSpace (caseRanges c) = isSpace c) (p : Publisher π)
    (input : CreateUserInput) (st : Store) (ps ps' : π) (log : List Call) (user : User)
    (hvalid : ¬ invalidUserInput input.Name input.Email input.Age)
    (hnorm : ∀ u ∈ st.users, TrimSpace u.Email = u.Email)
    (hseq : 0 < st.nextUserID)
    (hfresh : ∀ u ∈ st.users, u.Email ≠ ToLower caseRanges (TrimSpace input.Email))
    (huser : user =
      { ID := st.nextUserID, Name := TrimSpace input.Name,
        Email := ToLower caseRanges (TrimSpace input.Email), Age := input.Age,
        Files := [], CreatedAt := st.clock, UpdatedAt := st.clock })
    (hpub : p.Publish
      { Type_ := EventType.UserCreated, UserID := user.ID, Payload := some user,
        OccurredAt := st.clock } ps = (none, ps')) :
    CreateUser caseRanges (traced (memService p)) input ((st, ps), log)
      = ((user, none),
         (({ st with users := st.users ++ [user], nextUserID := st.nextUserID + 1 }, ps'),
          log ++
            [Call.getByEmail (ToLower caseRanges input.Email),
             Call.create
               { User.zero with
                 Name := TrimSpace input.Name
                 Email := ToLower caseRanges (TrimSpace input.Email)
                 Age := input.Age },
             Call.publish
               { Type_ := EventType.UserCreated, UserID := user.ID, Payload := some user,
                 OccurredAt := st.clock }]))
    ∧ user.ID ≠ 0 := by
  have hv := (validateUserInput_eq_none _ _ _).2 hvalid
  have hf := find_lowered_email_none caseRanges hcr st input.Email hnorm hfresh
  subst huser
  refine ⟨?_, Nat.pos_iff_ne_zero.1 hseq⟩
  simp only [CreateUser, hv, traced, logged, memService, onStore, memUsers, hf, User.zero,
    if_true, hpub, List.append_assoc, List.singleton_append, List.cons_append, List.nil_append]

/-- C3, applied: Jane is created in the empty store. -/
theorem C3_createUser_success_witness :
    CreateUser id (traced (memService InMemoryPublisher))
        { Name := " Jane ", Email := " Jane@Example.com", Age := 30 } ((Store.empty, []), [])
      = (({ User.zero with ID := 1, Name := "Jane", Email := "jane@example.com", Age := 30 }, none),
         (({ Store.empty with
              users := [{ User.zero with
                ID := 1, Name := "Jane", Email := "jane@example.com", Age := 30 }]
              nextUserID := 2 },
           [{ Type_ := EventType.UserCreated, UserID := 1,
              Payload := some { User.zero with
                ID := 1, Name := "Jane", Email := "jane@example.com", Age := 30 },
              OccurredAt := 0 }]),
          [Call.getByEmail " jane@example.com",
           Call.create { User.zero with Name := "Jane", Email := "jane@example.com", Age := 30 },
           Call.publish
             { Type_ := EventType.UserCreated, UserID := 1,
               Payload := some { User.zero with
                 ID := 1, Name := "Jane", Email := "jane@example.com", Age := 30 },
               OccurredAt := 0 }])) :=
  (C3_createUser_success id (fun _ => rfl) InMemoryPublisher
    { Name := " Jane ", Email := " Jane@Example.com", Age := 30 } Store.empty [] _ []
    { User.zero with ID := 1, Name := "Jane", Email := "jane@example.com", Age := 30 }
    (by decide) (by decide) (by decide) (by decide) rfl rfl).1

/-! ## Facts about the blocks of `UpdateUser` -/

theorem updateName_frame (input : UpdateUserInput) (user : User) :
    (updateName input user).ID = user.ID ∧ (updateName input user).Email = user.Email ∧
    (updateName input user).Age = user.Age ∧ (updateName input user).Files = user.Files ∧
    (input.Name = none → updateName input user = user) := by
  unfold updateName
  cases input.Name <;> simp

theorem updateEmail_ok_frame (caseRanges : Char → Char) (s : UserService σ)
    (input : UpdateUserInput) (user r : User) (w w1 : σ)
    (h : updateEmail caseRanges s input user w = (.ok r, w1)) :
    r.ID = user.ID ∧ r.Name = user.Name ∧ r.Age = user.Age ∧ r.Files = user.Files ∧
    (input.Email = none → r = user ∧ w1 = w) := by
  unfold updateEmail at h
  cases hE : input.Email with
  | none =>
    rw [hE] at h
    simp only [Prod.mk.injEq, Except.ok.injEq] at h
    obtain ⟨rfl, rfl⟩ := h
    simp
  | some raw =>
    rw [hE] at h
    simp only at h
    split at h
    · simp at h
    · split at h
      · simp at h
      · split at h
        · split at h
          · simp at h
          · simp only [Prod.mk.injEq, Except.ok.injEq] at h
            obtain ⟨rfl, _⟩ := h
            simp
        · simp only [Prod.mk.injEq, Except.ok.injEq] at h
          obtain ⟨rfl, _⟩ := h
          simp

theorem updateAge_ok_frame (input : UpdateUserInput) (user r : User)
    (h : updateAge input user = .ok r) :
    r.ID = user.ID ∧ r.Name = user.Name ∧ r.Email = user.Email ∧ r.Files = user.Files ∧
    (input.Age = none → r = user) := by
  unfold updateAge at h
  cases hA : input.Age with
  | none =>
    rw [hA] at h
    simp only [Except.ok.injEq] at h
    subst h
    simp
  | some age =>
    rw [hA] at h
    simp only at h
    split at h
    · simp at h
    · simp only [Except.ok.injEq] at h
      subst h
      simp

theorem updatePersist_ok (s : UserService σ) (user r : User) (w w1 : σ)
    (h : updatePersist s user w = ((r, none), w1)) :
    (s.users.Update user w).1 = (none, r) ∧
    (s.publisher.Publish
      { Type_ := EventType.UserUpdated, UserID := r.ID, Payload := some r,
        OccurredAt := s.now (s.users.Update user w).2 } (s.users.Update user w).2) = (none, w1) := by
  unfold updatePersist at h
  split at h
  · simp at h
  · rename_i u2 w2 hU
    simp only at h
    split at h
    · simp at h
    · rename_i w3 hP
      simp only [Prod.mk.injEq, and_true] at h
      obtain ⟨rfl, rfl⟩ := h
      rw [hU]
      exact ⟨rfl, hP⟩

/-- The steps of a successful `UpdateUser`: the user loaded, the user after
the three assignment blocks, and the world after the lookups. -/
theorem UpdateUser_ok (caseRanges : Char → Char) (s : UserService σ) (id : Nat)
    (input : UpdateUserInput) (w w' : σ) (r : User)
    (h : UpdateUser caseRanges s id input w = ((r, none), w')) :
    ∃ u w1 u1 w2 u2,
      s.users.GetByID id w = (.ok u, w1) ∧
      updateEmail caseRanges s input (updateName input u) w1 = (.ok u1, w2) ∧
      updateAge input u1 = .ok u2 ∧
      updatePersist s u2 w2 = ((r, none), w') := by
  unfold UpdateUser at h
  split at h
  · simp at h
  · rename_i u w1 hG
    split at h
    · simp at h
    · rename_i u1 w2 hE
      split at h
      · simp at h
      · rename_i u2 hA
        exact ⟨u, w1, u1, w2, u2, hG, hE, hA, h⟩

/-! ## C5 -/

/-- C5: let `GetByID id` return the stored user `u`. (1) For an input that
sets only the age, to a value above 18, when the gateway's `Update` succeeds
(leaving the user handed to it as it is) and the publisher accepts the event,
`UpdateUser` returns `u` with the new age and nothing else changed, and the
calls made are the load, one `Update` and one `Publish` of a `UserUpdated`
event. (2) For every input on which `UpdateUser` succeeds, against a gateway
whose `Update` does not write into the user handed to it, the returned user
has the identifier of `u`, and the name, the email and the age of `u` for each
of these the input leaves unset. -/
theorem C5_updateUser_unset_fields_unchanged (caseRanges : Char → Char) (s : UserService σ)
    (id : Nat) (u : User) (w w1 : σ) (hget : s.users.GetByID id w = (.ok u, w1)) :
    (∀ (age : Int) (w2 w3 : σ) (log : List Call), 18 < age →
      s.users.Update { u with Age := age } w1 = ((none, { u with Age := age }), w2) →
      s.publisher.Publish
        { Type_ := EventType.UserUpdated, UserID := u.ID, Payload := some { u with Age := age },
          OccurredAt := s.now w2 } w2 = (none, w3) →
      UpdateUser caseRanges (traced s) id { Name := none, Email := none, Age := some age } (w, log)
        = (({ u with Age := age }, none),
           (w3, log ++
             [Call.getByID id, Call.update { u with Age := age },
              Call.publish
                { Type_ := EventType.UserUpdated, UserID := u.ID,
                  Payload := some { u with Age := age }, OccurredAt := s.now w2 }]))) ∧
    (∀ (input : UpdateUserInput) (r : User) (w' : σ),
      (∀ x v, (s.users.Update x v).1.2 = x) →
      UpdateUser caseRanges s id input w = ((r, none), w') →
      r.ID = u.ID ∧ (input.Name = none → r.Name = u.Name) ∧
      (input.Email = none → r.Email = u.Email) ∧ (input.Age = none → r.Age = u.Age)) := by
  constructor
  · intro age w2 w3 log hage hupd hpub
    simp only [UpdateUser, traced, logged, hget, updateName, updateEmail, updateAge,
      not_le.2 hage, if_false, updatePersist, hupd, hpub, List.append_assoc,
      List.singleton_append, List.cons_append, List.nil_append]
  · intro input r w' hU h
    obtain ⟨u0, w0, u1, w2, u2, hG, hE, hA, hP⟩ := UpdateUser_ok caseRanges s id input w w' r h
    rw [hget] at hG
    simp only [Prod.mk.injEq, Except.ok.injEq] at hG
    obtain ⟨rfl, rfl⟩ := hG
    have hr : r = u2 := by
      have h1 := (updatePersist_ok s u2 r w2 w' hP).1
      have h2 := hU u2 w2
      rw [h1] at h2
      exact h2
    subst hr
    have hN := updateName_frame input u
    have hE2 := updateEmail_ok_frame caseRanges s input _ _ _ _ hE
    have hA2 := updateAge_ok_frame input _ _ hA
    refine ⟨?_, ?_, ?_, ?_⟩
    · rw [hA2.1, hE2.1, hN.1]
    · intro hn
      rw [hA2.2.1, hE2.2.1, hN.2.2.2.2 hn]
    · intro he
      rw [hA2.2.2.1, (hE2.2.2.2.2 he).1, hN.2.1]
    · intro ha
      rw [hA2.2.2.2.2 ha, hE2.2.2.1, hN.2.2.1]

/-- C5, applied: Jane, stored with age 30, is updated with only the age set,
to 19, against the in-memory gateway and publisher. -/
theorem C5_updateUser_unset_fields_unchanged_witness :
    UpdateUser id (traced (memService InMemoryPublisher)) 1
        { Name := none, Email := none, Age := some 19 } ((storeWithJane, []), [])
      = (({ User.zero with ID := 1, Name := "Jane", Email := "jane@example.com", Age := 19 }, none),
         (({ storeWithJane with
              users := [{ User.zero with
                ID := 1, Name := "Jane", Email := "jane@example.com", Age := 19 }] },
           [{ Type_ := EventType.UserUpdated, UserID := 1,
              Payload := some { User.zero with
                ID := 1, Name := "Jane", Email := "jane@example.com", Age := 19 },
              OccurredAt := 0 }]),
          [Call.getByID 1,
           Call.update { User.zero with
             ID := 1, Name := "Jane", Email := "jane@example.com", Age := 19 },
           Call.publish
             { Type_ := EventType.UserUpdated, UserID := 1,
               Payload := some { User.zero with
                 ID := 1, Name := "Jane", Email := "jane@example.com", Age := 19 },
               OccurredAt := 0 }])) :=
  (C5_updateUser_unset_fields_unchanged id (memService InMemoryPublisher) 1
    { User.zero with ID := 1, Name := "Jane", Email := "jane@example.com", Age := 30 }
    (storeWithJane, []) (storeWithJane, []) rfl).1 19 _ _ [] (by decide) rfl rfl

/-! ## Facts about the in-memory gateway -/

theorem find_id_some (st : Store) (id : Nat) (row : User)
    (h : st.users.find? (fun u => u.ID = id) = some row) : row ∈ st.users ∧ row.ID = id := by
  refine ⟨List.mem_of_find?_eq_some h, ?_⟩
  simpa using List.find?_some h

theorem find_email_some (st : Store) (email : String) (row : User)
    (h : st.users.find? (fun u => u.Email = email) = some row) :
    row ∈ st.users ∧ row.Email = email := by
  refine ⟨List.mem_of_find?_eq_some h, ?_⟩
  simpa using List.find?_some h

theorem find_id_none (st : Store) (id : Nat) (h : ∀ u ∈ st.users, u.ID ≠ id) :
    st.users.find? (fun u => u.ID = id) = none := by
  rw [List.find?_eq_none]
  intro u hu he
  exact h u hu (by simpa using he)

theorem memService_GetByID_some {π : Type} (p : Publisher π) (st : Store) (ps : π) (id : Nat)
    (row : User) (h : st.users.find? (fun u => u.ID = id) = some row) :
    (memService p).users.GetByID id (st, ps) = (.ok (st.preload row), (st, ps)) := by
  simp only [memService, onStore, memUsers, h]

theorem memService_GetByID_none {π : Type} (p : Publisher π) (st : Store) (ps : π) (id : Nat)
    (h : ∀ u ∈ st.users, u.ID ≠ id) :
    (memService p).users.GetByID id (st, ps) = (.error Err.ErrNotFound, (st, ps)) := by
  simp only [memService, onStore, memUsers, find_id_none st id h]

/-! ## C6 -/

/-- C6: against the in-memory gateway, for a stored user with identifier `id`
and an input whose age is provided and at most 18, whose name is arbitrary
and whose email is unset, or has a non-empty normalized form with "@" that no
stored user with another identifier has: `UpdateUser` returns
`ErrInvalidInput`; the store and the publisher state are the ones it started
from; and the only calls made are the load and, when an email is provided, the
email lookup, so neither `Update` nor `Publish` is called. -/
theorem C6_updateUser_age_rejected {π : Type} (caseRanges : Char → Char) (p : Publisher π)
    (st : Store) (ps : π) (log : List Call) (id : Nat) (row : User) (input : UpdateUserInput)
    (age : Int)
    (hrow : st.users.find? (fun u => u.ID = id) = some row)
    (hage : input.Age = some age) (hle : age ≤ 18)
    (hemail : ∀ raw, input.Email = some raw →
      ToLower caseRanges (TrimSpace raw) ≠ "" ∧
      Contains (ToLower caseRanges (TrimSpace raw)) "@" = true ∧
      ∀ v ∈ st.users, v.Email = ToLower caseRanges (TrimSpace raw) → v.ID = id) :
    UpdateUser caseRanges (traced (memService p)) id input ((st, ps), log)
      = ((User.zero, some Err.ErrInvalidInput),
         ((st, ps),
          log ++ Call.getByID id ::
            (match input.Email with
             | none => []
             | some raw => [Call.getByEmail (ToLower caseRanges (TrimSpace raw))]))) := by
  have hid := (find_id_some st id row hrow).2
  have hG := memService_GetByID_some p st ps id row hrow
  cases hE : input.Email with
  | none =>
    simp only [UpdateUser, traced, logged, hG, updateEmail, hE, updateAge, hage, hle, if_true]
  | some raw =>
    obtain ⟨_, hc, hconf⟩ := hemail raw hE
    have hv := (validateEmail_eq_none_iff_contains _).2 hc
    cases hF : st.users.find? (fun u => u.Email = ToLower caseRanges (TrimSpace raw)) with
    | none =>
      simp only [UpdateUser, traced, logged, hG, updateEmail, hE, hv, memService, onStore,
        memUsers, hF, hrow, updateAge, hage, hle, if_true, List.append_assoc,
        List.singleton_append, List.cons_append, List.nil_append]
    | some e =>
      have he := find_email_some st _ e hF
      have heid : e.ID = id := hconf e he.1 he.2
      have hne : ¬ (e.ID ≠ (updateName input (st.preload row)).ID) := by
        rw [(updateName_frame input _).1]
        simp [Store.preload, heid, hid]
      simp only [UpdateUser, traced, logged, hG, updateEmail, hE, hv, memService, onStore,
        memUsers, hF, hrow, hne, updateAge, hage, hle, if_true, if_false, List.append_assoc,
        List.singleton_append, List.cons_append, List.nil_append]

/-- C6, applied: Jane (identifier 1) is updated with a new name, her own
email in another letter case, and age 18. -/
theorem C6_updateUser_age_rejected_witness :
    UpdateUser id (traced (memService InMemoryPublisher)) 1
        { Name := some "Janet", Email := some " JANE@example.com ", Age := some 18 }
        ((storeWithJane, []), [])
      = ((User.zero, some Err.ErrInvalidInput),
         ((storeWithJane, []), [Call.getByID 1, Call.getByEmail "jane@example.com"])) :=
  C6_updateUser_age_rejected id InMemoryPublisher storeWithJane [] [] 1
    { User.zero with ID := 1, Name := "Jane", Email := "jane@example.com", Age := 30 }
    { Name := some "Janet", Email := some " JANE@example.com ", Age := some 18 } 18
    rfl rfl (by decide)
    (by
      intro raw h
      have hr : raw = " JANE@example.com " := by
        simp only [Option.some.injEq] at h
        exact h.symm
      subst hr
      decide)

/-! ## Facts about `ErrConflict` in `UpdateUser` -/

theorem updateAge_error (input : UpdateUserInput) (user : User) (err : Err)
    (h : updateAge input user = .error err) : err = Err.ErrInvalidInput := by
  unfold updateAge at h
  split at h
  · simp at h
  · split at h
    · simp only [Except.error.injEq] at h
      exact h.symm
    · simp at h

theorem updatePersist_not_conflict (s : UserService σ) (user : User) (w : σ) :
    (updatePersist s user w).1.2 ≠ some Err.ErrConflict := by
  unfold updatePersist
  split
  · simp
  · dsimp only
    split <;> simp

/-- `UpdateUser` returns `ErrConflict` exactly when its email block does. -/
theorem UpdateUser_conflict_iff (caseRanges : Char → Char) (s : UserService σ) (id : Nat)
    (input : UpdateUserInput) (u : User) (w w1 : σ)
    (hget : s.users.GetByID id w = (.ok u, w1)) :
    (UpdateUser caseRanges s id input w).1.2 = some Err.ErrConflict ↔
      (updateEmail caseRanges s input (updateName input u) w1).1 = .error Err.ErrConflict := by
  unfold UpdateUser
  rw [hget]
  simp only
  cases hE : updateEmail caseRanges s input (updateName input u) w1 with
  | mk r w2 =>
    cases r with
    | error err => simp
    | ok u1 =>
      simp only
      cases hA : updateAge input u1 with
      | error err =>
        have := updateAge_error input u1 err hA
        subst this
        simp
      | ok u2 =>
        simp only
        constructor
        · intro h
          exact absurd h (updatePersist_not_conflict s u2 w2)
        · intro h
          cases h

theorem pairwise_email_inj (l : List User) (h : l.Pairwise (fun a b => a.Email ≠ b.Email))
    (a b : User) (ha : a ∈ l) (hb : b ∈ l) (hab : a.Email = b.Email) : a = b := by
  by_contra hne
  have hs : Symmetric (fun a b : User => a.Email ≠ b.Email) := fun _ _ hxy => Ne.symm hxy
  exact (List.Pairwise.forall hs h ha hb hne) hab

/-! ## C8 -/

/-- What a successful `CreateUser` against the in-memory gateway and the
in-memory publisher leaves behind: the returned user appended to the user
table and one `UserCreated` event appended to the event list. -/
theorem CreateUser_mem_ok (caseRanges : Char → Char) (input : CreateUserInput) (st : Store)
    (events : List Event) (r : User) (w' : Store × List Event)
    (h : CreateUser caseRanges (memService InMemoryPublisher) input (st, events) = ((r, none), w')) :
    w' = ({ st with users := st.users ++ [r], nextUserID := st.nextUserID + 1 },
          events ++ [{ Type_ := EventType.UserCreated, UserID := r.ID, Payload := some r,
                       OccurredAt := st.clock }]) := by
  unfold CreateUser at h
  split at h
  · simp at h
  · split at h
    · simp at h
    · simp at h
    · rename_i w1 hL
      simp only [memService, onStore, memUsers, InMemoryPublisher, User.zero, if_true,
        Prod.mk.injEq, and_true, true_and] at h hL
      obtain ⟨rfl, rfl⟩ := h
      have hw : w1 = (st, events) := by
        split at hL <;> simp at hL
        exact hL.symm
      subst hw
      rfl

/-- C8: against the in-memory gateway and the in-memory publisher (which
never fails). (1) If a user with identifier `id` is stored, `DeleteUser id`
returns no error, makes one `Delete` and one `Publish` call, appends exactly
one event, of type `UserDeleted`, with user id `id` and no payload, and
afterwards `GetUser id` returns `ErrNotFound`. (2) If no stored user has
identifier `id`, `DeleteUser id` returns `ErrNotFound`, leaves the store and the
event list as they were and calls only `Delete`. (3) When `CreateUser`,
started with an empty event list, returns a user without error, `DeleteUser`
of the returned identifier returns no error and the event list is a
`UserCreated` event followed by a `UserDeleted` event that carries that
identifier. -/
theorem C8_deleteUser_events (caseRanges : Char → Char) (st : Store) (events : List Event)
    (log : List Call) (id : Nat) :
    ((∃ u ∈ st.users, u.ID = id) →
      DeleteUser (traced (memService InMemoryPublisher)) id ((st, events), log)
        = (none,
           (({ st with users := st.users.filter (fun u => u.ID ≠ id) },
             events ++ [{ Type_ := EventType.UserDeleted, UserID := id, Payload := none,
                          OccurredAt := st.clock }]),
            log ++ [Call.delete id,
              Call.publish { Type_ := EventType.UserDeleted, UserID := id, Payload := none,
                             OccurredAt := st.clock }]))
      ∧ (GetUser (memService InMemoryPublisher) id
          (DeleteUser (memService InMemoryPublisher) id (st, events)).2).1
          = (User.zero, some Err.ErrNotFound)) ∧
    ((∀ u ∈ st.users, u.ID ≠ id) →
      DeleteUser (traced (memService InMemoryPublisher)) id ((st, events), log)
        = (some Err.ErrNotFound, ((st, events), log ++ [Call.delete id]))) ∧
    (∀ (input : CreateUserInput) (r : User) (w1 : Store × List Event),
      CreateUser caseRanges (memService InMemoryPublisher) input (st, []) = ((r, none), w1) →
      ∃ st2 e1,
        DeleteUser (memService InMemoryPublisher) r.ID w1
          = (none, (st2, [e1, { Type_ := EventType.UserDeleted, UserID := r.ID, Payload := none,
                                OccurredAt := st.clock }]))
        ∧ e1.Type_ = EventType.UserCreated) := by
  refine ⟨?_, ?_, ?_⟩
  · rintro ⟨u, hu, hid⟩
    have hany : st.users.any (fun u => decide (u.ID = id)) = true := by
      rw [List.any_eq_true]
      exact ⟨u, hu, by simpa using hid⟩
    constructor
    · simp only [DeleteUser, traced, logged, memService, onStore, memUsers, hany, if_true,
        InMemoryPublisher, List.append_assoc, List.singleton_append, List.cons_append,
        List.nil_append]
    · have hnone : (st.users.filter (fun u => decide (u.ID ≠ id))).find?
          (fun u => decide (u.ID = id)) = none := by
        rw [List.find?_eq_none]
        intro v hv
        have := (List.mem_filter.1 hv).2
        simpa using this
      simp only [DeleteUser, GetUser, memService, onStore, memUsers, hany, if_true,
        InMemoryPublisher, hnone]
  · intro h
    have hany : st.users.any (fun u => decide (u.ID = id)) = false := by
      rw [List.any_eq_false]
      intro v hv
      simpa using h v hv
    simp only [DeleteUser, traced, logged, memService, onStore, memUsers, hany,
      Bool.false_eq_true, if_false]
  · intro input r w1 h
    have hw := CreateUser_mem_ok caseRanges input st [] r w1 h
    subst hw
    have hany : (st.users ++ [r]).any (fun u => decide (u.ID = r.ID)) = true := by
      rw [List.any_eq_true]
      exact ⟨r, by simp, by simp⟩
    refine ⟨{ st with
                users := (st.users ++ [r]).filter (fun u => u.ID ≠ r.ID)
                nextUserID := st.nextUserID + 1 },
            { Type_ := EventType.UserCreated, UserID := r.ID, Payload := some r,
              OccurredAt := st.clock }, ?_, rfl⟩
    simp only [DeleteUser, memService, onStore, memUsers, hany, if_true, InMemoryPublisher,
      List.nil_append, List.singleton_append]

/-- C8, applied: Jane (identifier 1) is deleted. -/
theorem C8_deleteUser_events_witness :
    DeleteUser (traced (memService InMemoryPublisher)) 1 ((storeWithJane, []), [])
      = (none,
         (({ storeWithJane with users := [] },
           [{ Type_ := EventType.UserDeleted, UserID := 1, Payload := none, OccurredAt := 0 }]),
          [Call.delete 1,
           Call.publish
             { Type_ := EventType.UserDeleted, UserID := 1, Payload := none, OccurredAt := 0 }])) :=
  ((C8_deleteUser_events id storeWithJane [] [] 1).1
    ⟨{ User.zero with ID := 1, Name := "Jane", Email := "jane@example.com", Age := 30 },
      by decide, rfl⟩).1

/-! ## More facts about the in-memory gateway -/

/-- The email block of `UpdateUser` against the in-memory gateway reads the
store only: its result does not depend on the publisher, and the world is
left as it was. -/
theorem updateEmail_mem {π ρ : Type} (caseRanges : Char → Char) (p : Publisher π)
    (q : Publisher ρ) (input : UpdateUserInput) (user : User) (st : Store) (ps : π) (qs : ρ) :
    updateEmail caseRanges (memService p) input user (st, ps)
      = ((updateEmail caseRanges (memService q) input user (st, qs)).1, (st, ps)) := by
  unfold updateEmail
  cases input.Email with
  | none => rfl
  | some raw =>
    simp only
    cases validateEmail (ToLower caseRanges (TrimSpace raw)) with
    | some err => rfl
    | none =>
      simp only [memService, onStore, memUsers]
      cases st.users.find? (fun u => u.Email = ToLower caseRanges (TrimSpace raw)) with
      | none => rfl
      | some e =>
        by_cases hd : e.ID = user.ID
        · simp [hd]
        · simp [hd]

theorem memService_GetByID_inv {π : Type} (p : Publisher π) (st : Store) (ps : π) (id : Nat)
    (u : User) (w1 : Store × π) (h : (memService p).users.GetByID id (st, ps) = (.ok u, w1)) :
    ∃ row, st.users.find? (fun u => u.ID = id) = some row ∧ u = st.preload row ∧
      w1 = (st, ps) := by
  simp only [memService, onStore, memUsers] at h
  cases hF : st.users.find? (fun u => u.ID = id) with
  | none => rw [hF] at h; simp at h
  | some row =>
    rw [hF] at h
    simp only [Prod.mk.injEq, Except.ok.injEq] at h
    exact ⟨row, rfl, h.1.symm, h.2.symm⟩

theorem mem_update_persisted (st : Store) (user row : User) (hrow : row ∈ st.users)
    (hid : row.ID = user.ID) :
    ∃ r ∈ (memUsers.Update user st).2.users,
      r.ID = user.ID ∧ r.Name = user.Name ∧ r.Email = user.Email ∧ r.Age = user.Age := by
  refine ⟨{ row with Name := user.Name, Email := user.Email, Age := user.Age,
                     CreatedAt := user.CreatedAt, UpdatedAt := st.clock }, ?_, hid, rfl, rfl, rfl⟩
  simp only [memUsers, List.mem_map]
  exact ⟨row, hrow, by simp [hid]⟩

/-- The steps of a `CreateUser` that succeeds against the in-memory gateway
and publisher: validation passed, the lookup found nothing, and the returned
user is the row the gateway stored. -/
theorem CreateUser_mem_ok_steps (caseRanges : Char → Char) (input : CreateUserInput)
    (st : Store) (events : List Event) (r : User) (w' : Store × List Event)
    (h : CreateUser caseRanges (memService InMemoryPublisher) input (st, events) = ((r, none), w')) :
    validateUserInput input.Name input.Email input.Age = none ∧
    st.users.find? (fun u => u.Email = ToLower caseRanges input.Email) = none ∧
    r = { ID := st.nextUserID, Name := TrimSpace input.Name,
          Email := ToLower caseRanges (TrimSpace input.Email), Age := input.Age,
          Files := [], CreatedAt := st.clock, UpdatedAt := st.clock } := by
  unfold CreateUser at h
  split at h
  · simp at h
  · rename_i hv
    refine ⟨hv, ?_⟩
    split at h
    · simp at h
    · simp at h
    · rename_i w1 hL
      simp only [memService, onStore, memUsers, InMemoryPublisher, User.zero, if_true,
        Prod.mk.injEq, and_true, true_and] at h hL
      cases hF : st.users.find? (fun u => u.Email = ToLower caseRanges input.Email) with
      | some e => rw [hF] at hL; simp at hL
      | none =>
        rw [hF] at hL
        simp only [true_and] at hL
        subst hL
        exact ⟨rfl, h.1.symm⟩

/-! ## C10 -/

/-- C10: against the in-memory gateway, when no stored user has identifier
`userID`, `AddFile` (for every input, blank or not), `ListFiles` and
`DeleteFiles` return `ErrNotFound`; the only call made is the load of the
owner, so `Add`, `ListByUser` and `DeleteByUser` are not called, and the store
is the one the operation started from. -/
theorem C10_file_operations_need_owner {π : Type} (p : Publisher π) (st : Store) (ps : π)
    (log : List Call) (userID : Nat) (input : FileInput)
    (h : ∀ u ∈ st.users, u.ID ≠ userID) :
    AddFile (traced (memService p)) userID input ((st, ps), log)
      = ((File.zero, some Err.ErrNotFound), ((st, ps), log ++ [Call.getByID userID])) ∧
    ListFiles (traced (memService p)) userID ((st, ps), log)
      = (.error Err.ErrNotFound, ((st, ps), log ++ [Call.getByID userID])) ∧
    DeleteFiles (traced (memService p)) userID ((st, ps), log)
      = (some Err.ErrNotFound, ((st, ps), log ++ [Call.getByID userID])) := by
  have hG := memService_GetByID_none p st ps userID h
  refine ⟨?_, ?_, ?_⟩
  · simp only [AddFile, traced, logged, hG]
  · simp only [ListFiles, traced, logged, hG]
  · simp only [DeleteFiles, traced, logged, hG]

/-- C10, applied: a file with blank name and path for user 7, who is not
stored. -/
theorem C10_file_operations_need_owner_witness :
    AddFile (traced (memService InMemoryPublisher)) 7 { Name := " ", Path := "" }
        ((storeWithJane, []), [])
      = ((File.zero, some Err.ErrNotFound), ((storeWithJane, []), [Call.getByID 7])) :=
  (C10_file_operations_need_owner InMemoryPublisher storeWithJane [] [] 7
    { Name := " ", Path := "" } (by decide)).1

/-! ## Stores the service builds

The two conditions C3 asks of the store (emails trimmed, identifier sequence
positive) hold in every store reached from the empty one by service calls. -/

theorem trimRunes_idem (d : List Char) : trimRunes (trimRunes d) = trimRunes d := by
  have e : ∀ l, trimRunes l = (l.dropWhile isSpace).rdropWhile isSpace := fun _ => rfl
  rw [e, e]
  have hm : List.dropWhile isSpace ((d.dropWhile isSpace).rdropWhile isSpace)
      = (d.dropWhile isSpace).rdropWhile isSpace := by
    rw [List.dropWhile_eq_self_iff]
    intro hl
    have hp : (d.dropWhile isSpace).rdropWhile isSpace <+: d.dropWhile isSpace :=
      List.rdropWhile_prefix _ _
    have hl2 : 0 < (d.dropWhile isSpace).length := lt_of_lt_of_le hl hp.length_le
    have h0 := List.dropWhile_get_zero_not isSpace d hl2
    have hg := hp.getElem hl
    simp only [List.get_eq_getElem] at h0 ⊢
    rw [hg]
    exact h0
  rw [hm, List.rdropWhile_idempotent]

theorem TrimSpace_normalized (caseRanges : Char → Char)
    (hcr : ∀ c, isSpace (caseRanges c) = isSpace c) (raw : String) :
    TrimSpace (ToLower caseRanges (TrimSpace raw)) = ToLower caseRanges (TrimSpace raw) := by
  rw [TrimSpace_ToLower caseRanges hcr]
  congr 1
  apply String.ext
  rw [TrimSpace_data, TrimSpace_data]
  exact trimRunes_idem _

theorem updateEmail_ok_email {σ : Type} (caseRanges : Char → Char) (s : UserService σ)
    (input : UpdateUserInput) (user r : User) (w w1 : σ)
    (h : updateEmail caseRanges s input user w = (.ok r, w1)) :
    r.Email = user.Email ∨ ∃ raw, r.Email = ToLower caseRanges (TrimSpace raw) := by
  unfold updateEmail at h
  cases hE : input.Email with
  | none =>
    rw [hE] at h
    simp only [Prod.mk.injEq, Except.ok.injEq] at h
    exact Or.inl (by rw [h.1])
  | some raw =>
    right
    refine ⟨raw, ?_⟩
    rw [hE] at h
    simp only at h
    split at h
    · simp at h
    · split at h
      · simp at h
      · split at h
        · split at h
          · simp at h
          · simp only [Prod.mk.injEq, Except.ok.injEq] at h
            rw [← h.1]
        · simp only [Prod.mk.injEq, Except.ok.injEq] at h
          rw [← h.1]

theorem CreateUser_mem_store {π : Type} (caseRanges : Char → Char) (p : Publisher π)
    (input : CreateUserInput) (st : Store) (ps : π) :
    (CreateUser caseRanges (memService p) input (st, ps)).2.1 = st ∨
    (CreateUser caseRanges (memService p) input (st, ps)).2.1 =
      { st with
        users := st.users ++
          [{ ID := st.nextUserID, Name := TrimSpace input.Name,
             Email := ToLower caseRanges (TrimSpace input.Email), Age := input.Age,
             Files := [], CreatedAt := st.clock, UpdatedAt := st.clock }]
        nextUserID := st.nextUserID + 1 } := by
  unfold CreateUser
  cases validateUserInput input.Name input.Email input.Age with
  | some err => exact Or.inl rfl
  | none =>
    simp only [memService, onStore, memUsers, User.zero, if_true]
    cases st.users.find? (fun u => u.Email = ToLower caseRanges input.Email) with
    | some e => exact Or.inl rfl
    | none =>
      right
      simp only
      split
      · rename_i h
        simp only [Prod.mk.injEq] at h
        obtain ⟨_, rfl⟩ := h
        rfl
      · rename_i h
        simp only [Prod.mk.injEq] at h
        obtain ⟨_, rfl⟩ := h
        rfl

theorem UpdateUser_mem_store {π : Type} (caseRanges : Char → Char) (p : Publisher π)
    (id : Nat) (input : UpdateUserInput) (st : Store) (ps : π) :
    (UpdateUser caseRanges (memService p) id input (st, ps)).2.1 = st ∨
    ∃ u2 row, row ∈ st.users ∧
      (UpdateUser caseRanges (memService p) id input (st, ps)).2.1 = (memUsers.Update u2 st).2 ∧
      (u2.Email = row.Email ∨ ∃ raw, u2.Email = ToLower caseRanges (TrimSpace raw)) := by
  cases hF : st.users.find? (fun u => u.ID = id) with
  | none =>
    left
    simp only [UpdateUser, memService, onStore, memUsers, hF]
  | some row =>
    have hG := memService_GetByID_some p st ps id row hF
    have hEm := updateEmail_mem caseRanges p p input (updateName input (st.preload row)) st ps ps
    unfold UpdateUser
    rw [hG]
    simp only
    cases hE : updateEmail caseRanges (memService p) input (updateName input (st.preload row)) (st, ps) with
    | mk r w2 =>
      rw [hE] at hEm
      simp only [Prod.mk.injEq] at hEm
      obtain ⟨_, hw2⟩ := hEm
      subst hw2
      cases r with
      | error err => exact Or.inl rfl
      | ok u1 =>
        simp only
        cases hA : updateAge input u1 with
        | error err => exact Or.inl rfl
        | ok u2 =>
          right
          refine ⟨u2, row, (find_id_some st id row hF).1, ?_, ?_⟩
          · simp only [updatePersist, memService, onStore, memUsers]
            split
            · rename_i h
              simp only [Prod.mk.injEq] at h
              obtain ⟨_, rfl⟩ := h
              rfl
            · rename_i h
              simp only [Prod.mk.injEq] at h
              obtain ⟨_, rfl⟩ := h
              rfl
          · rw [(updateAge_ok_frame input u1 u2 hA).2.2.1]
            rcases updateEmail_ok_email caseRanges _ input _ _ _ _ hE with h | h
            · left
              rw [h, (updateName_frame input _).2.1]
              rfl
            · exact Or.inr h

theorem runCall_mem_inv {π : Type} (caseRanges : Char → Char)
    (hcr : ∀ c, isSpace (caseRanges c) = isSpace c) (p : Publisher π) (c : ServiceCall)
    (w : Store × π)
    (h1 : ∀ u ∈ w.1.users, TrimSpace u.Email = u.Email) (h2 : 0 < w.1.nextUserID) :
    (∀ u ∈ (runCall caseRanges (memService p) c w).1.users, TrimSpace u.Email = u.Email) ∧
    0 < (runCall caseRanges (memService p) c w).1.nextUserID := by
  obtain ⟨st, ps⟩ := w
  simp only at h1 h2
  cases c with
  | listUsers => exact ⟨h1, h2⟩
  | getUser id =>
    have : (GetUser (memService p) id (st, ps)).2 = (st, ps) := by
      simp only [GetUser, memService, onStore, memUsers]
      cases st.users.find? (fun u => u.ID = id) <;> rfl
    simp only [runCall, this]
    exact ⟨h1, h2⟩
  | createUser input =>
    simp only [runCall]
    rcases CreateUser_mem_store caseRanges p input st ps with h | h
    · rw [h]; exact ⟨h1, h2⟩
    · rw [h]
      refine ⟨?_, Nat.succ_pos _⟩
      intro u hu
      simp only [List.mem_append, List.mem_singleton] at hu
      rcases hu with hu | hu
      · exact h1 u hu
      · rw [hu]
        exact TrimSpace_normalized caseRanges hcr _
  | updateUser id input =>
    simp only [runCall]
    rcases UpdateUser_mem_store caseRanges p id input st ps with h | ⟨u2, row, hrow, h, he⟩
    · rw [h]; exact ⟨h1, h2⟩
    · rw [h]
      have hu2 : TrimSpace u2.Email = u2.Email := by
        rcases he with he | ⟨raw, he⟩
        · rw [he]; exact h1 row hrow
        · rw [he]; exact TrimSpace_normalized caseRanges hcr _
      refine ⟨?_, h2⟩
      intro u hu
      simp only [memUsers, List.mem_map] at hu
      obtain ⟨r, hr, rfl⟩ := hu
      split
      · exact hu2
      · exact h1 r hr
  | deleteUser id =>
    simp only [runCall, DeleteUser, memService, onStore, memUsers]
    by_cases hany : st.users.any (fun u => decide (u.ID = id)) = true
    · simp only [hany, if_true]
      split
      · rename_i h
        simp only [Prod.mk.injEq] at h
        obtain ⟨_, rfl⟩ := h
        exact ⟨fun u hu => h1 u (List.mem_filter.1 hu).1, h2⟩
      · rename_i h
        simp only [Prod.mk.injEq] at h
        obtain ⟨_, rfl⟩ := h
        exact ⟨fun u hu => h1 u (List.mem_filter.1 hu).1, h2⟩
    · simp only [hany, Bool.false_eq_true, if_false]
      exact ⟨h1, h2⟩
  | listFiles userID =>
    have : (ListFiles (memService p) userID (st, ps)).2 = (st, ps) := by
      simp only [ListFiles, memService, onStore, memUsers, memFiles]
      cases st.users.find? (fun u => u.ID = userID) <;> rfl
    simp only [runCall, this]
    exact ⟨h1, h2⟩
  | addFile userID input =>
    have : (AddFile (memService p) userID input (st, ps)).2.1.users = st.users ∧
        (AddFile (memService p) userID input (st, ps)).2.1.nextUserID = st.nextUserID := by
      simp only [AddFile, memService, onStore, memUsers, memFiles]
      cases st.users.find? (fun u => u.ID = userID) with
      | none => exact ⟨rfl, rfl⟩
      | some row =>
        simp only
        split
        · exact ⟨rfl, rfl⟩
        · exact ⟨rfl, rfl⟩
    simp only [runCall, this]
    exact ⟨h1, h2⟩
  | deleteFiles userID =>
    have : (DeleteFiles (memService p) userID (st, ps)).2.1.users = st.users ∧
        (DeleteFiles (memService p) userID (st, ps)).2.1.nextUserID = st.nextUserID := by
      simp only [DeleteFiles, memService, onStore, memUsers, memFiles]
      cases st.users.find? (fun u => u.ID = userID) <;> exact ⟨rfl, rfl⟩
    simp only [runCall, this]
    exact ⟨h1, h2⟩

/-- Every store the service builds from the empty one, against the in-memory
gateway, holds trimmed emails only and has a positive identifier sequence. -/
theorem runCalls_mem_inv {π : Type} (caseRanges : Char → Char)
    (hcr : ∀ c, isSpace (caseRanges c) = isSpace c) (p : Publisher π) (cs : List ServiceCall)
    (ps : π) :
    (∀ u ∈ (runCalls caseRanges (memService p) cs (Store.empty, ps)).1.users,
        TrimSpace u.Email = u.Email) ∧
    0 < (runCalls caseRanges (memService p) cs (Store.empty, ps)).1.nextUserID := by
  have gen : ∀ (cs : List ServiceCall) (w : Store × π),
      (∀ u ∈ w.1.users, TrimSpace u.Email = u.Email) → 0 < w.1.nextUserID →
      (∀ u ∈ (runCalls caseRanges (memService p) cs w).1.users, TrimSpace u.Email = u.Email) ∧
      0 < (runCalls caseRanges (memService p) cs w).1.nextUserID := by
    intro cs
    induction cs with
    | nil => intro w h1 h2; exact ⟨h1, h2⟩
    | cons c t ih =>
      intro w h1 h2
      have hs := runCall_mem_inv caseRanges hcr p c w h1 h2
      exact ih _ hs.1 hs.2
  exact gen cs (Store.empty, ps) (by intro u hu; cases hu) Nat.one_pos

/-! ## C11 -/

theorem filesOf_append (st : Store) (file : File) (userID : Nat) (h : file.UserID = userID) :
    ({ st with files := st.files ++ [file] } : Store).filesOf userID
      = st.filesOf userID ++ [file] := by
  simp [Store.filesOf, List.filter_append, h]

/-- C11: against the in-memory gateway, for a stored user with identifier
`userID` and every file input. (1) `AddFile` returns `ErrInvalidInput` if and
only if the trimmed name or the trimmed path is empty, and then the store is
the one it started from and `Add` is not called. (2) Otherwise it returns,
without error, the stored file: identifier from the sequence, owner `userID`,
name and path the trimmed inputs; the file table gains exactly that row; and
`ListFiles userID` afterwards returns the files the user had followed by the
new one, one more than before. -/
theorem C11_addFile {π : Type} (p : Publisher π) (st : Store) (ps : π) (log : List Call)
    (userID : Nat) (row : User) (input : FileInput)
    (hrow : st.users.find? (fun u => u.ID = userID) = some row) :
    ((AddFile (memService p) userID input (st, ps)).1.2 = some Err.ErrInvalidInput ↔
      TrimSpace input.Name = "" ∨ TrimSpace input.Path = "") ∧
    (TrimSpace input.Name = "" ∨ TrimSpace input.Path = "" →
      AddFile (traced (memService p)) userID input ((st, ps), log)
        = ((File.zero, some Err.ErrInvalidInput), ((st, ps), log ++ [Call.getByID userID]))) ∧
    (¬ (TrimSpace input.Name = "" ∨ TrimSpace input.Path = "") →
      ∀ file : File,
        file = { ID := st.nextFileID, UserID := userID, Name := TrimSpace input.Name,
                 Path := TrimSpace input.Path, CreatedAt := st.clock } →
        AddFile (traced (memService p)) userID input ((st, ps), log)
          = ((file, none),
             (({ st with files := st.files ++ [file], nextFileID := st.nextFileID + 1 }, ps),
              log ++ [Call.getByID userID,
                Call.add { File.zero with
                  UserID := userID
                  Name := TrimSpace input.Name
                  Path := TrimSpace input.Path }]))
        ∧ (ListFiles (memService p) userID
            (AddFile (memService p) userID input (st, ps)).2).1
            = .ok (st.filesOf userID ++ [file])
        ∧ (st.filesOf userID ++ [file]).length = (st.filesOf userID).length + 1) := by
  have hG := memService_GetByID_some p st ps userID row hrow
  refine ⟨?_, ?_, ?_⟩
  · by_cases hb : TrimSpace input.Name = "" ∨ TrimSpace input.Path = ""
    · simp only [AddFile, hG, hb, if_true]
    · simp only [AddFile, hG, hb, if_false, iff_false]
      simp only [memService, onStore, memFiles]
      simp
  · intro hb
    simp only [AddFile, traced, logged, hG, hb, if_true]
  · intro hb file hfile
    subst hfile
    refine ⟨?_, ?_, ?_⟩
    · simp only [AddFile, traced, logged, hG, hb, if_false]
      simp only [memService, onStore, memFiles, File.zero, if_true, List.append_assoc,
        List.singleton_append, List.cons_append, List.nil_append]
    · have hst : (AddFile (memService p) userID input (st, ps)).2
          = ({ st with
                files := st.files ++
                  [{ ID := st.nextFileID, UserID := userID, Name := TrimSpace input.Name,
                     Path := TrimSpace input.Path, CreatedAt := st.clock }]
                nextFileID := st.nextFileID + 1 }, ps) := by
        simp only [AddFile, hG, hb, if_false]
        simp only [memService, onStore, memFiles, File.zero, if_true]
      rw [hst]
      simp only [ListFiles, memService, onStore, memUsers, memFiles, hrow]
      simp [Store.filesOf, List.filter_append]
    · simp

/-- C11, applied: a passport file is added for Jane, who owns no file yet. -/
theorem C11_addFile_witness :
    AddFile (traced (memService InMemoryPublisher)) 1
        { Name := " passport ", Path := "/tmp/passport.pdf" } ((storeWithJane, []), [])
      = (({ ID := 1, UserID := 1, Name := "passport", Path := "/tmp/passport.pdf",
            CreatedAt := 0 }, none),
         (({ storeWithJane with
              files := [{ ID := 1, UserID := 1, Name := "passport", Path := "/tmp/passport.pdf",
                          CreatedAt := 0 }]
              nextFileID := 2 }, []),
          [Call.getByID 1,
           Call.add { File.zero with
             UserID := 1, Name := "passport", Path := "/tmp/passport.pdf" }])) :=
  ((C11_addFile InMemoryPublisher storeWithJane [] [] 1
      { User.zero with ID := 1, Name := "Jane", Email := "jane@example.com", Age := 30 }
      { Name := " passport ", Path := "/tmp/passport.pdf" } rfl).2.2 (by decide)
    { ID := 1, UserID := 1, Name := "passport", Path := "/tmp/passport.pdf", CreatedAt := 0 }
    rfl).1

/-! ## C12 -/

theorem filter_ne_filter_eq (files : List File) (userID : Nat) :
    (files.filter (fun f => decide (f.UserID ≠ userID))).filter
        (fun f => decide (f.UserID = userID)) = [] := by
  rw [List.filter_eq_nil_iff]
  intro f hf
  have := (List.mem_filter.1 hf).2
  simpa using this

theorem filter_ne_other (files : List File) (userID other : Nat) (h : other ≠ userID) :
    (files.filter (fun f => decide (f.UserID ≠ userID))).filter
        (fun f => decide (f.UserID = other))
      = files.filter (fun f => decide (f.UserID = other)) := by
  rw [List.filter_filter]
  apply List.filter_congr
  intro f _
  by_cases hf : f.UserID = other
  · simp [hf, h]
  · simp [hf]

/-- C12: against the in-memory gateway, for a stored user with identifier
`userID`, whether the user owns files or not: `DeleteFiles userID` returns no
error after the calls `GetByID` and `DeleteByUser`; the store it leaves has the
same users and no file of `userID`, so `ListFiles userID` returns the empty
list; the files of every other identifier are the ones it had; and a second
`DeleteFiles userID` returns no error and leaves that same store. -/
theorem C12_deleteFiles_idempotent {π : Type} (p : Publisher π) (st : Store) (ps : π)
    (log : List Call) (userID : Nat) (row : User)
    (hrow : st.users.find? (fun u => u.ID = userID) = some row) :
    DeleteFiles (traced (memService p)) userID ((st, ps), log)
      = (none,
         (({ st with files := st.files.filter (fun f => f.UserID ≠ userID) }, ps),
          log ++ [Call.getByID userID, Call.deleteByUser userID])) ∧
    (ListFiles (memService p) userID (DeleteFiles (memService p) userID (st, ps)).2).1
      = .ok [] ∧
    (DeleteFiles (memService p) userID (st, ps)).2.1.users = st.users ∧
    (∀ other, other ≠ userID →
      (DeleteFiles (memService p) userID (st, ps)).2.1.filesOf other = st.filesOf other) ∧
    DeleteFiles (memService p) userID (DeleteFiles (memService p) userID (st, ps)).2
      = (none, (DeleteFiles (memService p) userID (st, ps)).2) := by
  have hG := memService_GetByID_some p st ps userID row hrow
  have hst : DeleteFiles (memService p) userID (st, ps)
      = (none, ({ st with files := st.files.filter (fun f => f.UserID ≠ userID) }, ps)) := by
    simp only [DeleteFiles, hG]
    simp only [memService, onStore, memFiles]
  have hG2 := memService_GetByID_some p
    { st with files := st.files.filter (fun f => f.UserID ≠ userID) } ps userID row hrow
  refine ⟨?_, ?_, ?_, ?_, ?_⟩
  · simp only [DeleteFiles, traced, logged, hG]
    simp only [memService, onStore, memFiles, List.append_assoc, List.singleton_append,
      List.cons_append, List.nil_append]
  · rw [hst]
    simp only [ListFiles, hG2]
    simp only [memService, onStore, memFiles, Store.filesOf, filter_ne_filter_eq]
  · rw [hst]
  · intro other ho
    rw [hst]
    simp only [Store.filesOf]
    exact filter_ne_other st.files userID other ho
  · rw [hst]
    simp only [DeleteFiles, hG2]
    simp only [memService, onStore, memFiles, List.filter_filter, Bool.and_self]

/-- C12, applied: the files of Jane are deleted; the file of Bob stays. -/
theorem C12_deleteFiles_idempotent_witness :
    DeleteFiles (traced (memService InMemoryPublisher)) 1 ((storeWithFiles, []), [])
      = (none,
         (({ storeWithFiles with
              files := [{ ID := 2, UserID := 2, Name := "invoice", Path := "/tmp/invoice.pdf",
                          CreatedAt := 0 }] }, []),
          [Call.getByID 1, Call.deleteByUser 1])) :=
  (C12_deleteFiles_idempotent InMemoryPublisher storeWithFiles [] [] 1
    { User.zero with ID := 1, Name := "Jane", Email := "jane@example.com", Age := 30 } rfl).1

/-! ## C13 -/

theorem UpdateUser_mem_id {π : Type} (caseRanges : Char → Char) (p : Publisher π) (id : Nat)
    (input : UpdateUserInput) (st : Store) (ps : π) (r : User) (w' : Store × π)
    (h : UpdateUser caseRanges (memService p) id input (st, ps) = ((r, none), w')) :
    r.ID = id := by
  obtain ⟨u, w1, u1, w2, u2, hG, hE, hA, hP⟩ := UpdateUser_ok caseRanges _ id input _ _ r h
  obtain ⟨row, hrow, hu, hw1⟩ := memService_GetByID_inv p st ps id u w1 hG
  have hr : r = u2 := by
    have := (updatePersist_ok (memService p) u2 r _ _ hP).1
    simp only [memService, onStore, memUsers, Prod.mk.injEq, true_and] at this
    exact this.symm
  rw [hr, (updateAge_ok_frame input _ _ hA).1,
    (updateEmail_ok_frame caseRanges _ input _ _ _ _ hE).1, (updateName_frame input u).1, hu]
  exact (find_id_some st id row hrow).2

/-- Against the in-memory gateway and publisher, one call appends to the
event list exactly the events expected of it. -/
theorem runCall_mem_events (caseRanges : Char → Char) (c : ServiceCall) (st : Store)
    (evs : List Event) :
    (runCall caseRanges (memService InMemoryPublisher) c (st, evs)).2.map
        (fun e => (e.Type_, e.UserID))
      = evs.map (fun e => (e.Type_, e.UserID)) ++
          expectedEvent caseRanges (memService InMemoryPublisher) c (st, evs) := by
  cases c with
  | listUsers => simp [runCall, expectedEvent, ListUsers, memService, onStore]
  | getUser id =>
    have : (GetUser (memService InMemoryPublisher) id (st, evs)).2 = (st, evs) := by
      simp only [GetUser, memService, onStore, memUsers]
      cases st.users.find? (fun u => u.ID = id) <;> rfl
    simp [runCall, expectedEvent, this]
  | createUser input =>
    simp only [runCall, expectedEvent]
    cases hC : CreateUser caseRanges (memService InMemoryPublisher) input (st, evs) with
    | mk res w' =>
      obtain ⟨r, e⟩ := res
      cases e with
      | none =>
        have hw := CreateUser_mem_ok caseRanges input st evs r w' hC
        subst hw
        simp
      | some err =>
        have hw : w'.2 = evs := by
          have h2 : (CreateUser caseRanges (memService InMemoryPublisher) input (st, evs)).2.2
              = w'.2 := by rw [hC]
          rw [← h2]
          unfold CreateUser at hC ⊢
          split at hC
          · rfl
          · simp only [memService, onStore, memUsers, InMemoryPublisher, User.zero, if_true]
              at hC ⊢
            cases hF : st.users.find? (fun u => u.Email = ToLower caseRanges input.Email) with
            | some e => rfl
            | none =>
              rw [hF] at hC
              simp at hC
        simp [hw]
  | updateUser id input =>
    simp only [runCall, expectedEvent]
    cases hU : UpdateUser caseRanges (memService InMemoryPublisher) id input (st, evs) with
    | mk res w' =>
      obtain ⟨r, e⟩ := res
      cases e with
      | none =>
        have hid := UpdateUser_mem_id caseRanges InMemoryPublisher id input st evs r w' hU
        obtain ⟨u, w1, u1, w2, u2, hG, hE, hA, hP⟩ :=
          UpdateUser_ok caseRanges _ id input _ _ r hU
        obtain ⟨row, hrow, hu, hw1⟩ := memService_GetByID_inv InMemoryPublisher st evs id u w1 hG
        subst hw1
        have hE2 := updateEmail_mem caseRanges InMemoryPublisher InMemoryPublisher input
          (updateName input u) st evs evs
        rw [hE] at hE2
        simp only [Prod.mk.injEq, true_and] at hE2
        subst hE2
        have hPf := (updatePersist_ok (memService InMemoryPublisher) u2 r _ _ hP).2
        simp only [memService, onStore, InMemoryPublisher] at hPf
        simp only [Prod.mk.injEq, true_and] at hPf
        rw [← hPf]
        simp [hid]
      | some err =>
        have hw : w'.2 = evs := by
          have h2 : (UpdateUser caseRanges (memService InMemoryPublisher) id input (st, evs)).2.2
              = w'.2 := by rw [hU]
          rw [← h2]
          cases hF : st.users.find? (fun u => u.ID = id) with
          | none => simp only [UpdateUser, memService, onStore, memUsers, hF]
          | some row =>
            have hG := memService_GetByID_some InMemoryPublisher st evs id row hF
            have hEm := updateEmail_mem caseRanges InMemoryPublisher InMemoryPublisher input
              (updateName input (st.preload row)) st evs evs
            unfold UpdateUser at hU ⊢
            rw [hG] at hU ⊢
            simp only at hU ⊢
            cases hE : updateEmail caseRanges (memService InMemoryPublisher) input
                (updateName input (st.preload row)) (st, evs) with
            | mk r1 w2 =>
              rw [hE] at hEm hU
              simp only [Prod.mk.injEq] at hEm
              obtain ⟨_, hw2⟩ := hEm
              subst hw2
              cases r1 with
              | error e1 => rfl
              | ok u1 =>
                simp only at hU ⊢
                cases hA : updateAge input u1 with
                | error e2 => rfl
                | ok u2 =>
                  rw [hA] at hU
                  simp only [updatePersist, memService, onStore, memUsers, InMemoryPublisher]
                    at hU
                  simp at hU
        simp [hw]
  | deleteUser id =>
    simp only [runCall, expectedEvent, DeleteUser, memService, onStore, memUsers,
      InMemoryPublisher]
    by_cases hany : st.users.any (fun u => decide (u.ID = id)) = true
    · simp [hany]
    · simp [hany]
  | listFiles userID =>
    have : (ListFiles (memService InMemoryPublisher) userID (st, evs)).2 = (st, evs) := by
      simp only [ListFiles, memService, onStore, memUsers, memFiles]
      cases st.users.find? (fun u => u.ID = userID) <;> rfl
    simp [runCall, expectedEvent, this]
  | addFile userID input =>
    have : (AddFile (memService InMemoryPublisher) userID input (st, evs)).2.2 = evs := by
      simp only [AddFile, memService, onStore, memUsers, memFiles]
      cases st.users.find? (fun u => u.ID = userID) with
      | none => rfl
      | some row =>
        simp only
        split <;> rfl
    simp [runCall, expectedEvent, this]
  | deleteFiles userID =>
    have : (DeleteFiles (memService InMemoryPublisher) userID (st, evs)).2.2 = evs := by
      simp only [DeleteFiles, memService, onStore, memUsers, memFiles]
      cases st.users.find? (fun u => u.ID = userID) <;> rfl
    simp [runCall, expectedEvent, this]

/-- C13: against the in-memory gateway and the in-memory publisher (which
never fails), after any finite sequence of service calls, from any store and
event list, the events published are the ones already there followed, in call
order, by one event per `CreateUser`, `UpdateUser` or `DeleteUser` call that
returned no error, of type `UserCreated`, `UserUpdated` or `UserDeleted` and
with the identifier of the affected user; the other operations and the calls
that return an error add none. For the scenario create, update, add file,
delete files, delete user, from the empty store, the events are
`UserCreated`, `UserUpdated`, `UserDeleted` for user 1, three in all. -/
theorem C13_events_follow_calls (caseRanges : Char → Char) (cs : List ServiceCall)
    (st : Store) (evs : List Event) :
    ((runCalls caseRanges (memService InMemoryPublisher) cs (st, evs)).2.map
        (fun e => (e.Type_, e.UserID))
      = evs.map (fun e => (e.Type_, e.UserID)) ++
          expectedEvents caseRanges (memService InMemoryPublisher) cs (st, evs)) ∧
    ((runCalls caseRanges (memService InMemoryPublisher) scenarioCalls (Store.empty, [])).2.map
        (fun e => (e.Type_, e.UserID))
      = [(EventType.UserCreated, 1), (EventType.UserUpdated, 1), (EventType.UserDeleted, 1)]) ∧
    (runCalls caseRanges (memService InMemoryPublisher) scenarioCalls
        (Store.empty, [])).2.length = 3 := by
  refine ⟨?_, rfl, rfl⟩
  induction cs generalizing st evs with
  | nil => simp [runCalls, expectedEvents]
  | cons c t ih =>
    have hstep := runCall_mem_events caseRanges c st evs
    have hrun : runCalls caseRanges (memService InMemoryPublisher) (c :: t) (st, evs)
        = runCalls caseRanges (memService InMemoryPublisher) t
            (runCall caseRanges (memService InMemoryPublisher) c (st, evs)) := rfl
    rw [hrun]
    have ih2 := ih (runCall caseRanges (memService InMemoryPublisher) c (st, evs)).1
      (runCall caseRanges (memService InMemoryPublisher) c (st, evs)).2
    rw [ih2, hstep]
    simp [expectedEvents]

/-! ## C14 -/

theorem updateEmail_mem_error {π : Type} (caseRanges : Char → Char) (p : Publisher π)
    (input : UpdateUserInput) (user : User) (st : Store) (ps : π) (err : Err) (w2 : Store × π)
    (h : updateEmail caseRanges (memService p) input user (st, ps) = (.error err, w2)) :
    err = Err.ErrInvalidInput ∨ err = Err.ErrConflict := by
  unfold updateEmail at h
  cases hE : input.Email with
  | none => rw [hE] at h; simp at h
  | some raw =>
    rw [hE] at h
    simp only at h
    cases hv : validateEmail (ToLower caseRanges (TrimSpace raw)) with
    | some e =>
      rw [hv] at h
      simp only [Prod.mk.injEq, Except.error.injEq] at h
      rw [← h.1]
      exact Or.inl (validateEmail_eq_some _ e hv)
    | none =>
      rw [hv] at h
      simp only [memService, onStore, memUsers] at h
      cases hF : st.users.find? (fun u => u.Email = ToLower caseRanges (TrimSpace raw)) with
      | none => rw [hF] at h; simp at h
      | some e =>
        rw [hF] at h
        simp only at h
        split at h
        · simp only [Prod.mk.injEq, Except.error.injEq] at h
          exact Or.inr h.1.symm
        · simp at h

/-- The errors a service call returns against the in-memory gateway: one of
the three sentinels, or a publisher error wrapped with its context. -/
theorem callError_mem_cases {π : Type} (caseRanges : Char → Char) (p : Publisher π)
    (c : ServiceCall) (st : Store) (ps : π) (err : Err)
    (h : callError caseRanges (memService p) c (st, ps) = some err) :
    err = Err.ErrInvalidInput ∨ err = Err.ErrConflict ∨ err = Err.ErrNotFound ∨
    ∃ ctx evt qs e, err = Err.wrapped ctx e ∧ (p.Publish evt qs).1 = some e := by
  cases c with
  | listUsers =>
    simp [callError, ListUsers, memService, onStore, memUsers] at h
  | getUser id =>
    simp only [callError, GetUser, memService, onStore, memUsers] at h
    cases hF : st.users.find? (fun u => u.ID = id) with
    | none =>
      rw [hF] at h
      simp at h
      exact Or.inr (Or.inr (Or.inl h.symm))
    | some row => rw [hF] at h; simp at h
  | createUser input =>
    simp only [callError, CreateUser] at h
    cases hv : validateUserInput input.Name input.Email input.Age with
    | some e =>
      rw [hv] at h
      simp only [Option.some.injEq] at h
      rw [← h]
      exact Or.inl (validateUserInput_eq_some _ _ _ e hv)
    | none =>
      rw [hv] at h
      simp only [memService, onStore, memUsers, User.zero, if_true] at h
      cases hF : st.users.find? (fun u => u.Email = ToLower caseRanges input.Email) with
      | some e =>
        rw [hF] at h
        simp only [Option.some.injEq] at h
        exact Or.inr (Or.inl h.symm)
      | none =>
        rw [hF] at h
        simp only at h
        split at h
        · rename_i e w3 hP
          simp only [Option.some.injEq] at h
          simp only [Prod.mk.injEq] at hP
          exact Or.inr (Or.inr (Or.inr ⟨_, _, _, e, h.symm, hP.1⟩))
        · simp at h
  | updateUser id input =>
    simp only [callError] at h
    cases hF : st.users.find? (fun u => u.ID = id) with
    | none =>
      simp only [UpdateUser, memService, onStore, memUsers, hF, Option.some.injEq] at h
      exact Or.inr (Or.inr (Or.inl h.symm))
    | some row =>
      have hG := memService_GetByID_some p st ps id row hF
      unfold UpdateUser at h
      rw [hG] at h
      simp only at h
      cases hE : updateEmail caseRanges (memService p) input
          (updateName input (st.preload row)) (st, ps) with
      | mk r1 w2 =>
        rw [hE] at h
        cases r1 with
        | error e1 =>
          simp only [Option.some.injEq] at h
          subst h
          rcases updateEmail_mem_error caseRanges p input _ st ps e1 w2 hE with h1 | h1
          · exact Or.inl h1
          · exact Or.inr (Or.inl h1)
        | ok u1 =>
          simp only at h
          cases hA : updateAge input u1 with
          | error e2 =>
            rw [hA] at h
            simp only [Option.some.injEq] at h
            rw [← h]
            exact Or.inl (updateAge_error input u1 e2 hA)
          | ok u2 =>
            rw [hA] at h
            simp only [updatePersist, memService, onStore, memUsers] at h
            split at h
            · rename_i e w3 hP
              simp only [Option.some.injEq] at h
              simp only [Prod.mk.injEq] at hP
              exact Or.inr (Or.inr (Or.inr ⟨_, _, _, e, h.symm, hP.1⟩))
            · simp at h
  | deleteUser id =>
    simp only [callError, DeleteUser, memService, onStore, memUsers] at h
    by_cases hany : st.users.any (fun u => decide (u.ID = id)) = true
    · simp only [hany, if_true] at h
      split at h
      · rename_i e w3 hP
        simp only [Option.some.injEq] at h
        simp only [Prod.mk.injEq] at hP
        exact Or.inr (Or.inr (Or.inr ⟨_, _, _, e, h.symm, hP.1⟩))
      · simp at h
    · simp only [hany, Bool.false_eq_true, if_false, Option.some.injEq] at h
      exact Or.inr (Or.inr (Or.inl h.symm))
  | listFiles userID =>
    simp only [callError, ListFiles, memService, onStore, memUsers, memFiles] at h
    cases hF : st.users.find? (fun u => u.ID = userID) with
    | none =>
      rw [hF] at h
      simp at h
      exact Or.inr (Or.inr (Or.inl h.symm))
    | some row => rw [hF] at h; simp at h
  | addFile userID input =>
    simp only [callError, AddFile, memService, onStore, memUsers, memFiles] at h
    cases hF : st.users.find? (fun u => u.ID = userID) with
    | none =>
      rw [hF] at h
      simp at h
      exact Or.inr (Or.inr (Or.inl h.symm))
    | some row =>
      rw [hF] at h
      simp only at h
      split at h
      · simp only [Option.some.injEq] at h
        exact Or.inl h.symm
      · simp at h
  | deleteFiles userID =>
    simp only [callError, DeleteFiles, memService, onStore, memUsers, memFiles] at h
    cases hF : st.users.find? (fun u => u.ID = userID) with
    | none =>
      rw [hF] at h
      simp at h
      exact Or.inr (Or.inr (Or.inl h.symm))
    | some row => rw [hF] at h; simp at h

theorem handle_mem_status {π : Type} (caseRanges : Char → Char) (p : Publisher π)
    (req : ApiRequest) (c : ServiceCall) (st : Store) (ps : π) (err : Err)
    (hc : req.call = some c)
    (h : callError caseRanges (memService p) c (st, ps) = some err) :
    (UserHandler.handle caseRanges (memService p) req (st, ps)).1 = statusForError err := by
  cases req with
  | listUsers =>
    simp only [ApiRequest.call, Option.some.injEq] at hc
    subst hc
    simp [callError, ListUsers, memService, onStore, memUsers] at h
  | getUser rawID =>
    simp only [ApiRequest.call, Option.map_eq_some'] at hc
    obtain ⟨id, hid, rfl⟩ := hc
    simp only [callError] at h
    simp only [UserHandler.handle, UserHandler.getUser, hid]
    split
    · rename_i e w1 hr
      rw [hr] at h
      simp only [Option.some.injEq] at h
      rw [h]
    · rename_i w1 hr
      rw [hr] at h
      simp at h
  | createUser body =>
    simp only [ApiRequest.call, Option.map_eq_some'] at hc
    obtain ⟨input, hb, rfl⟩ := hc
    simp only [callError] at h
    simp only [UserHandler.handle, UserHandler.createUser, hb]
    split
    · rename_i e w1 hr
      rw [hr] at h
      simp only [Option.some.injEq] at h
      rw [h]
    · rename_i w1 hr
      rw [hr] at h
      simp at h
  | updateUser rawID body =>
    simp only [ApiRequest.call] at hc
    cases hid : parseID rawID with
    | none => rw [hid] at hc; simp at hc
    | some id =>
      cases hb : body with
      | none => rw [hid, hb] at hc; simp at hc
      | some input =>
        rw [hid, hb] at hc
        simp only [Option.some.injEq] at hc
        subst hc
        simp only [callError] at h
        simp only [UserHandler.handle, UserHandler.updateUser, hid]
        split
        · rename_i e w1 hr
          rw [hr] at h
          simp only [Option.some.injEq] at h
          rw [h]
        · rename_i w1 hr
          rw [hr] at h
          simp at h
  | deleteUser rawID =>
    simp only [ApiRequest.call, Option.map_eq_some'] at hc
    obtain ⟨id, hid, rfl⟩ := hc
    simp only [callError] at h
    simp only [UserHandler.handle, UserHandler.deleteUser, hid]
    split
    · rename_i e w1 hr
      rw [hr] at h
      simp only [Option.some.injEq] at h
      rw [h]
    · rename_i w1 hr
      rw [hr] at h
      simp at h
  | listFiles rawID =>
    simp only [ApiRequest.call, Option.map_eq_some'] at hc
    obtain ⟨id, hid, rfl⟩ := hc
    simp only [callError] at h
    simp only [UserHandler.handle, UserHandler.listFiles, hid]
    split
    · rename_i e w1 hr
      rw [hr] at h
      simp only [Option.some.injEq] at h
      rw [h]
    · rename_i w1 hr
      rw [hr] at h
      simp at h
  | addFile rawID body =>
    simp only [ApiRequest.call] at hc
    cases hid : parseID rawID with
    | none => rw [hid] at hc; simp at hc
    | some id =>
      cases hb : body with
      | none => rw [hid, hb] at hc; simp at hc
      | some input =>
        rw [hid, hb] at hc
        simp only [Option.some.injEq] at hc
        subst hc
        simp only [callError] at h
        simp only [UserHandler.handle, UserHandler.addFile, hid]
        split
        · rename_i e w1 hr
          rw [hr] at h
          simp only [Option.some.injEq] at h
          rw [h]
        · rename_i w1 hr
          rw [hr] at h
          simp at h
  | deleteFiles rawID =>
    simp only [ApiRequest.call, Option.map_eq_some'] at hc
    obtain ⟨id, hid, rfl⟩ := hc
    simp only [callError] at h
    simp only [UserHandler.handle, UserHandler.deleteFiles, hid]
    split
    · rename_i e w1 hr
      rw [hr] at h
      simp only [Option.some.injEq] at h
      rw [h]
    · rename_i w1 hr
      rw [hr] at h
      simp at h

/-- C14: `statusForError` maps `ErrInvalidInput` to 400, `ErrConflict` to 409,
`ErrNotFound` to 404 and every other error to 500. Against the in-memory
gateway, with a publisher whose errors are none of the three sentinels (nor
wrap one): whenever the service call behind a request returns an error that
is, in the sense of `errors.Is`, one of the three sentinels, the error is that
sentinel itself, unwrapped, and the handler answers with its status: 400, 409
or 404. -/
theorem C14_status_for_service_errors {π : Type} (caseRanges : Char → Char) (p : Publisher π)
    (hp : ∀ evt qs e, (p.Publish evt qs).1 = some e →
      Err.Is e Err.ErrInvalidInput = false ∧ Err.Is e Err.ErrConflict = false ∧
      Err.Is e Err.ErrNotFound = false)
    (st : Store) (ps : π) :
    (statusForError Err.ErrInvalidInput = 400 ∧ statusForError Err.ErrConflict = 409 ∧
      statusForError Err.ErrNotFound = 404 ∧
      ∀ e, e ≠ Err.ErrInvalidInput → e ≠ Err.ErrConflict → e ≠ Err.ErrNotFound →
        statusForError e = 500) ∧
    (∀ (req : ApiRequest) (c : ServiceCall) (err target : Err),
      req.call = some c →
      callError caseRanges (memService p) c (st, ps) = some err →
      (target = Err.ErrInvalidInput ∨ target = Err.ErrConflict ∨ target = Err.ErrNotFound) →
      Err.Is err target = true →
      err = target ∧
      (UserHandler.handle caseRanges (memService p) req (st, ps)).1 = statusForError target) := by
  refine ⟨⟨rfl, rfl, rfl, ?_⟩, ?_⟩
  · intro e h1 h2 h3
    cases e <;> first | rfl | exact absurd rfl h1 | exact absurd rfl h2 | exact absurd rfl h3
  · intro req c err target hc h ht hIs
    have hst := handle_mem_status caseRanges p req c st ps err hc h
    have heq : err = target := by
      rcases callError_mem_cases caseRanges p c st ps err h with
        h1 | h1 | h1 | ⟨ctx, evt, qs, e, h1, hP⟩
      · subst h1
        rcases ht with rfl | rfl | rfl
        · rfl
        · simp [Err.Is] at hIs
        · simp [Err.Is] at hIs
      · subst h1
        rcases ht with rfl | rfl | rfl
        · simp [Err.Is] at hIs
        · rfl
        · simp [Err.Is] at hIs
      · subst h1
        rcases ht with rfl | rfl | rfl
        · simp [Err.Is] at hIs
        · simp [Err.Is] at hIs
        · rfl
      · subst h1
        obtain ⟨p1, p2, p3⟩ := hp evt qs e hP
        rcases ht with rfl | rfl | rfl
        · simp [Err.Is, p1] at hIs
        · simp [Err.Is, p2] at hIs
        · simp [Err.Is, p3] at hIs
    exact ⟨heq, by rw [hst, heq]⟩

/-- C14, applied: creating a user of age 18 is answered with 400. -/
theorem C14_status_for_service_errors_witness :
    (UserHandler.handle id (memService InMemoryPublisher)
        (ApiRequest.createUser (some { Name := "John", Email := "john@example.com", Age := 18 }))
        (Store.empty, [])).1 = 400 :=
  ((C14_status_for_service_errors id InMemoryPublisher
      (by intro evt qs e h; cases h) Store.empty []).2
    (ApiRequest.createUser (some { Name := "John", Email := "john@example.com", Age := 18 }))
    (ServiceCall.createUser { Name := "John", Email := "john@example.com", Age := 18 })
    Err.ErrInvalidInput Err.ErrInvalidInput rfl (by decide) (Or.inl rfl) (by decide)).2

/-! ## C15 -/

theorem errorsSurface_of_check (log : List (Call × Bool)) (failed : Bool)
    (h : errorsSurfaceCheck log failed = true) : errorsSurface log failed := by
  induction log with
  | nil =>
    intro pre c post he
    cases pre <;> simp at he
  | cons x rest ih =>
    intro pre c post he
    obtain ⟨cx, fx⟩ := x
    cases rest with
    | nil =>
      cases pre with
      | nil =>
        simp only [List.nil_append, List.cons.injEq, Prod.mk.injEq] at he
        obtain ⟨⟨_, hf⟩, hp⟩ := he
        subst hf
        simp only [errorsSurfaceCheck, Bool.not_true, Bool.false_or] at h
        exact ⟨hp.symm, h⟩
      | cons y pre2 =>
        simp only [List.cons_append, List.cons.injEq] at he
        have := he.2
        cases pre2 <;> simp at this
    | cons y rest2 =>
      simp only [errorsSurfaceCheck, Bool.and_eq_true, Bool.not_eq_true'] at h
      cases pre with
      | nil =>
        simp only [List.nil_append, List.cons.injEq, Prod.mk.injEq] at he
        rw [he.1.2] at h
        exact absurd h.1 (by simp)
      | cons z pre2 =>
        simp only [List.cons_append, List.cons.injEq] at he
        exact ih h.2 pre2 c post he.2

theorem check_append_clean (lg : List (Call × Bool)) (hl : ∀ x ∈ lg, x.2 = false)
    (rest : List (Call × Bool)) (failed : Bool) :
    errorsSurfaceCheck (lg ++ rest) failed = errorsSurfaceCheck rest failed := by
  induction lg with
  | nil => rfl
  | cons x lg2 ih =>
    obtain ⟨c, b⟩ := x
    have hb : b = false := hl (c, b) (List.mem_cons_self _ _)
    subst hb
    have ih2 := ih (fun y hy => hl y (List.mem_cons_of_mem _ hy))
    cases hrest : lg2 ++ rest with
    | nil =>
      have hr : rest = [] := (List.append_eq_nil.1 hrest).2
      rw [List.cons_append, hrest, hr]
      simp [errorsSurfaceCheck]
    | cons y t =>
      rw [List.cons_append, hrest]
      rw [hrest] at ih2
      simp only [errorsSurfaceCheck, Bool.not_false, Bool.true_and]
      exact ih2

theorem check_clean (lg : List (Call × Bool)) (hl : ∀ x ∈ lg, x.2 = false) (failed : Bool) :
    errorsSurfaceCheck lg failed = true := by
  have := check_append_clean lg hl [] failed
  rw [List.append_nil] at this
  rw [this]
  rfl

theorem clean_append (lg : List (Call × Bool)) (hl : ∀ x ∈ lg, x.2 = false) (c : Call) :
    ∀ x ∈ lg ++ [(c, false)], x.2 = false := by
  intro x hx
  rcases List.mem_append.1 hx with h | h
  · exact hl x h
  · simp only [List.mem_singleton] at h
    rw [h]

/-- The email block of `UpdateUser` on a log without failed calls: it either
succeeds and leaves such a log, or fails and the last call logged is the one
that failed, if any. -/
theorem updateEmail_tracedErr (caseRanges : Char → Char) (s : UserService σ)
    (input : UpdateUserInput) (user : User) (w : σ) (lg : List (Call × Bool))
    (hl : ∀ x ∈ lg, x.2 = false) :
    (∃ u1, (updateEmail caseRanges (tracedErr s) input user (w, lg)).1 = .ok u1 ∧
      ∀ x ∈ (updateEmail caseRanges (tracedErr s) input user (w, lg)).2.2, x.2 = false) ∨
    (∃ e, (updateEmail caseRanges (tracedErr s) input user (w, lg)).1 = .error e ∧
      errorsSurfaceCheck (updateEmail caseRanges (tracedErr s) input user (w, lg)).2.2 true
        = true) := by
  unfold updateEmail
  cases input.Email with
  | none => exact Or.inl ⟨user, rfl, hl⟩
  | some raw =>
    simp only
    cases validateEmail (ToLower caseRanges (TrimSpace raw)) with
    | some e => exact Or.inr ⟨e, rfl, check_clean lg hl true⟩
    | none =>
      simp only [tracedErr, loggedErr]
      rcases s.users.GetByEmail (ToLower caseRanges (TrimSpace raw)) w with ⟨r, w1⟩
      cases r with
      | error e =>
        right
        refine ⟨_, rfl, ?_⟩
        simp only [exceptFailed]
        rw [check_append_clean lg hl]
        rfl
      | ok existing =>
        simp only [exceptFailed]
        cases existing with
        | none => exact Or.inl ⟨_, rfl, clean_append lg hl _⟩
        | some ex =>
          simp only
          by_cases hd : ex.ID = user.ID
          · left
            simp only [ne_eq, hd, not_true_eq_false, if_false]
            exact ⟨_, rfl, clean_append lg hl _⟩
          · right
            simp only [ne_eq, hd, not_false_eq_true, if_true]
            exact ⟨_, rfl, check_clean _ (clean_append lg hl _) true⟩

/-- The age and persist blocks of `UpdateUser` on a log without failed
calls. -/
theorem updateTail_tracedErr (s : UserService σ) (input : UpdateUserInput) (u1 : User)
    (w2 : σ) (lg : List (Call × Bool)) (hl : ∀ x ∈ lg, x.2 = false) :
    errorsSurfaceCheck
      (match updateAge input u1 with
        | .error err => ((User.zero, some err), (w2, lg))
        | .ok user => updatePersist (tracedErr s) user (w2, lg)).2.2
      (match updateAge input u1 with
        | .error err => ((User.zero, some err), (w2, lg))
        | .ok user => updatePersist (tracedErr s) user (w2, lg)).1.2.isSome = true := by
  cases updateAge input u1 with
  | error e => exact check_clean lg hl _
  | ok u2 =>
    simp only [updatePersist, tracedErr, loggedErr]
    rcases s.users.Update u2 w2 with ⟨⟨e, u3⟩, w3⟩
    cases e with
    | some e =>
      simp only [Option.isSome_some]
      rw [check_append_clean lg hl]
      rfl
    | none =>
      simp only [Option.isSome_none]
      rcases s.publisher.Publish
        { Type_ := EventType.UserUpdated, UserID := u3.ID, Payload := some u3,
          OccurredAt := s.now w3 } w3 with ⟨e, w4⟩
      cases e with
      | some e =>
        simp only [Option.isSome_some]
        rw [check_append_clean _ (clean_append lg hl _)]
        rfl
      | none =>
        simp only [Option.isSome_none]
        exact check_clean _ (clean_append _ (clean_append lg hl _) _) _

/-- C15: for every gateway and every publisher, whatever they return, and
for each of the eight service operations: in the calls the operation makes, a
call that returns an error is the last one, and the operation then returns an
error. -/
theorem C15_errors_are_not_swallowed (caseRanges : Char → Char) (s : UserService σ)
    (c : ServiceCall) (w : σ) :
    errorsSurface (runCall caseRanges (tracedErr s) c (w, [])).2
      (callError caseRanges (tracedErr s) c (w, [])).isSome := by
  apply errorsSurface_of_check
  cases c with
  | listUsers =>
    simp only [runCall, callError, ListUsers, tracedErr, loggedErr]
    rcases s.users.List w with ⟨r, w1⟩
    cases r <;> simp [errorsSurfaceCheck, exceptFailed]
  | getUser id =>
    simp only [runCall, callError, GetUser, tracedErr, loggedErr]
    rcases s.users.GetByID id w with ⟨r, w1⟩
    cases r with
    | error e =>
      by_cases he : e = Err.ErrNotFound <;> simp [errorsSurfaceCheck, exceptFailed, he]
    | ok u => simp [errorsSurfaceCheck, exceptFailed]
  | createUser input =>
    simp only [runCall, callError, CreateUser, tracedErr, loggedErr]
    cases validateUserInput input.Name input.Email input.Age with
    | some e => simp [errorsSurfaceCheck]
    | none =>
      simp only
      rcases s.users.GetByEmail (ToLower caseRanges input.Email) w with ⟨r, w1⟩
      cases r with
      | error e => simp [errorsSurfaceCheck, exceptFailed]
      | ok o =>
        cases o with
        | some u => simp [errorsSurfaceCheck, exceptFailed]
        | none =>
          simp only
          rcases s.users.Create { User.zero with
              Name := TrimSpace input.Name
              Email := ToLower caseRanges (TrimSpace input.Email)
              Age := input.Age } w1 with ⟨⟨e, u⟩, w2⟩
          cases e with
          | some e => simp [errorsSurfaceCheck, exceptFailed]
          | none =>
            simp only
            rcases s.publisher.Publish
              { Type_ := EventType.UserCreated, UserID := u.ID, Payload := some u,
                OccurredAt := s.now w2 } w2 with ⟨e, w3⟩
            cases e <;> simp [errorsSurfaceCheck, exceptFailed]
  | updateUser id input =>
    simp only [runCall, callError, UpdateUser]
    have hG : (tracedErr s).users.GetByID id (w, [])
        = ((s.users.GetByID id w).1,
           ((s.users.GetByID id w).2, [(Call.getByID id, exceptFailed (s.users.GetByID id w).1)])) :=
      rfl
    rw [hG]
    rcases s.users.GetByID id w with ⟨r, w1⟩
    cases r with
    | error e => simp [errorsSurfaceCheck, exceptFailed]
    | ok u =>
      simp only [exceptFailed]
      have hclean : ∀ x ∈ [(Call.getByID id, false)], x.2 = false := by
        intro x hx
        simp only [List.mem_singleton] at hx
        rw [hx]
      rcases updateEmail_tracedErr caseRanges s input (updateName input u) w1 _ hclean with
        ⟨u1, h1, h2⟩ | ⟨e, h1, h2⟩
      · rcases hE : updateEmail caseRanges (tracedErr s) input (updateName input u)
            (w1, [(Call.getByID id, false)]) with ⟨r2, w2, lg2⟩
        rw [hE] at h1 h2
        simp only at h1 h2
        subst h1
        exact updateTail_tracedErr s input u1 w2 lg2 h2
      · rcases hE : updateEmail caseRanges (tracedErr s) input (updateName input u)
            (w1, [(Call.getByID id, false)]) with ⟨r2, w2, lg2⟩
        rw [hE] at h1 h2
        simp only at h1 h2
        subst h1
        simpa using h2
  | deleteUser id =>
    simp only [runCall, callError, DeleteUser, tracedErr, loggedErr]
    rcases s.users.Delete id w with ⟨e, w1⟩
    cases e with
    | some e => simp [errorsSurfaceCheck]
    | none =>
      simp only
      rcases s.publisher.Publish
        { Type_ := EventType.UserDeleted, UserID := id, Payload := none,
          OccurredAt := s.now w1 } w1 with ⟨e, w2⟩
      cases e <;> simp [errorsSurfaceCheck]
  | listFiles userID =>
    simp only [runCall, callError, ListFiles, tracedErr, loggedErr]
    rcases s.users.GetByID userID w with ⟨r, w1⟩
    cases r with
    | error e => simp [errorsSurfaceCheck, exceptFailed]
    | ok u =>
      simp only
      rcases s.files.ListByUser userID w1 with ⟨r2, w2⟩
      cases r2 <;> simp [errorsSurfaceCheck, exceptFailed]
  | addFile userID input =>
    simp only [runCall, callError, AddFile, tracedErr, loggedErr]
    rcases s.users.GetByID userID w with ⟨r, w1⟩
    cases r with
    | error e => simp [errorsSurfaceCheck, exceptFailed]
    | ok u =>
      simp only
      by_cases hb : TrimSpace input.Name = "" ∨ TrimSpace input.Path = ""
      · simp [errorsSurfaceCheck, exceptFailed, hb]
      · simp only [hb, if_false]
        rcases s.files.Add { File.zero with
            UserID := userID
            Name := TrimSpace input.Name
            Path := TrimSpace input.Path } w1 with ⟨⟨e, f⟩, w2⟩
        cases e <;> simp [errorsSurfaceCheck, exceptFailed]
  | deleteFiles userID =>
    simp only [runCall, callError, DeleteFiles, tracedErr, loggedErr]
    rcases s.users.GetByID userID w with ⟨r, w1⟩
    cases r with
    | error e => simp [errorsSurfaceCheck, exceptFailed]
    | ok u =>
      simp only
      rcases s.files.DeleteByUser userID w1 with ⟨e, w2⟩
      cases e <;> simp [errorsSurfaceCheck, exceptFailed]

/-! ## C16 -/

/-- C16, at the failing input: Jane is stored; `UpdateUser` with a name made
of three blanks (email and age unset) returns no error, returns Jane with the
empty name, stores the empty name, and publishes a `UserUpdated` event whose
payload has the empty name. -/
theorem C16_updateUser_accepts_blank_name (caseRanges : Char → Char) :
    UpdateUser caseRanges (traced (memService InMemoryPublisher)) 1
        { Name := some "   ", Email := none, Age := none } ((storeWithJane, []), [])
      = (({ User.zero with ID := 1, Name := "", Email := "jane@example.com", Age := 30 }, none),
         (({ storeWithJane with
              users := [{ User.zero with
                ID := 1, Name := "", Email := "jane@example.com", Age := 30 }] },
           [{ Type_ := EventType.UserUpdated, UserID := 1,
              Payload := some { User.zero with
                ID := 1, Name := "", Email := "jane@example.com", Age := 30 },
              OccurredAt := 0 }]),
          [Call.getByID 1,
           Call.update { User.zero with
             ID := 1, Name := "", Email := "jane@example.com", Age := 30 },
           Call.publish
             { Type_ := EventType.UserUpdated, UserID := 1,
               Payload := some { User.zero with
                 ID := 1, Name := "", Email := "jane@example.com", Age := 30 },
               OccurredAt := 0 }])) := by
  rfl

/-! ## C17 -/

/-- C17, at the failing input: Jane (identifier 1) is stored in the Postgres
repository and owns one file. `DeleteUser 1` returns no error and Jane is no
longer found, but her row is only marked deleted and the file table is
untouched: the file whose owner is 1 is still stored, and `ListByUser 1` on
the repository still returns it. -/
theorem C17_deleteUser_keeps_files :
    DeleteUser (pgService InMemoryPublisher) 1 (databaseWithJane, [])
      = (none,
         ({ databaseWithJane with
             user_models :=
               [{ ID := 1, CreatedAt := 5, UpdatedAt := 5, DeletedAt := some 9, Name := "Jane",
                  Email := "jane@example.com", Age := 30, Files := [] }] },
          [{ Type_ := EventType.UserDeleted, UserID := 1, Payload := none, OccurredAt := 9 }])) ∧
    (GetUser (pgService InMemoryPublisher) 1
        (DeleteUser (pgService InMemoryPublisher) 1 (databaseWithJane, [])).2).1
      = (User.zero, some Err.ErrNotFound) ∧
    (DeleteUser (pgService InMemoryPublisher) 1 (databaseWithJane, [])).2.1.file_models
      = [{ ID := 1, CreatedAt := 6, UpdatedAt := 6, DeletedAt := none, UserID := 1,
           Name := "passport", Path := "/tmp/passport.pdf" }] ∧
    (Repository.ListByUser 1
        (DeleteUser (pgService InMemoryPublisher) 1 (databaseWithJane, [])).2.1).1
      = .ok [{ ID := 1, UserID := 1, Name := "passport", Path := "/tmp/passport.pdf",
               CreatedAt := 6 }] := by
  refine ⟨?_, ?_, ?_, ?_⟩ <;> rfl

/-! ## C19 -/

/-- C19, at the failing input: Jane (identifier 1) is stored in the Postgres
repository. `UpdateUser 1` with a name made of two blanks returns, without
error, a user whose name is empty; `Updates` skips the empty name, so the
stored name stays "Jane", and `GetUser 1` afterwards returns the name "Jane",
not the name `UpdateUser` returned. -/
theorem C19_updateUser_returns_unpersisted_name (caseRanges : Char → Char) :
    ((UpdateUser caseRanges (pgService InMemoryPublisher) 1
        { Name := some "  ", Email := none, Age := none } (databaseWithJane, [])).1.2 = none ∧
     (UpdateUser caseRanges (pgService InMemoryPublisher) 1
        { Name := some "  ", Email := none, Age := none } (databaseWithJane, [])).1.1.Name = "") ∧
    ((GetUser (pgService InMemoryPublisher) 1
        (UpdateUser caseRanges (pgService InMemoryPublisher) 1
          { Name := some "  ", Email := none, Age := none } (databaseWithJane, [])).2).1.2 = none ∧
     (GetUser (pgService InMemoryPublisher) 1
        (UpdateUser caseRanges (pgService InMemoryPublisher) 1
          { Name := some "  ", Email := none, Age := none } (databaseWithJane, [])).2).1.1.Name
       = "Jane") := by
  refine ⟨⟨?_, ?_⟩, ?_, ?_⟩ <;> rfl

/-! ## C18 -/

/-- C18: for every request on one of the eight routes of `/api/v1`, whatever
the service, the gateway and the publisher: when the `Authorization` header is
absent or empty, or does not start with "Bearer ", or carries a token that
fails validation against the configured secret, the router answers 401, and
the world and the call log are the ones before the request, so no user handler
and no service operation ran. The login route does not look at the header:
with the configured credentials and a token signed it answers 200 without
one. -/
theorem C18_api_requires_bearer_token (jwtValid : String → String → Bool) (secret : String)
    (auth : AuthHandler) (signed : Option String) (caseRanges : Char → Char)
    (s : UserService σ) (r : ApiRequest) (authorization : Option String) (w : σ)
    (log : List Call) :
    ((authorization = none ∨ authorization = some "" ∨
        HasPrefix (authorization.getD "") "Bearer " = false ∨
        jwtValid secret (TrimPrefix (authorization.getD "") "Bearer ") = false) →
      NewRouter jwtValid secret auth signed caseRanges (traced s) (RoutedRequest.api r)
          authorization (w, log)
        = (401, (w, log))) ∧
    (∀ body : Option loginRequest,
      NewRouter jwtValid secret auth signed caseRanges (traced s) (RoutedRequest.login body)
          authorization (w, log)
        = (auth.Login body signed, (w, log))) ∧
    (∀ token : String,
      NewRouter jwtValid secret auth (some token) caseRanges (traced s)
          (RoutedRequest.login (some { Username := auth.adminUser, Password := auth.adminPass }))
          none (w, log)
        = (200, (w, log))) := by
  refine ⟨?_, ?_, ?_⟩
  · intro h
    have hA : Auth.Handler jwtValid secret authorization = some 401 := by
      unfold Auth.Handler
      rcases h with h | h | h | h
      · subst h; simp
      · subst h; simp
      · simp [h]
      · by_cases h1 : authorization.getD "" = "" ∨ ¬ HasPrefix (authorization.getD "") "Bearer "
        · simp only [h1, if_true]
        · simp only [h1, if_false, h, if_true]
    simp only [NewRouter, hA]
  · intro body
    rfl
  · intro token
    simp [NewRouter, AuthHandler.Login]

/-- C18, applied: a request to list the users with the header "Token abc" is
answered with 401 and nothing is called. -/
theorem C18_api_requires_bearer_token_witness :
    NewRouter (fun _ _ => true) "secret"
        { secret := "secret", adminUser := "admin", adminPass := "password" } none id
        (traced (memService InMemoryPublisher)) (RoutedRequest.api ApiRequest.listUsers)
        (some "Token abc") ((storeWithJane, []), [])
      = (401, ((storeWithJane, []), [])) :=
  (C18_api_requires_bearer_token (fun _ _ => true) "secret"
    { secret := "secret", adminUser := "admin", adminPass := "password" } none id
    (memService InMemoryPublisher) ApiRequest.listUsers (some "Token abc")
    (storeWithJane, []) []).1 (Or.inr (Or.inr (Or.inl (by decide))))

/-! ## C20 -/

/-- Within the range in which the product fits 64 bits, `durationOrDefault`
returns the minutes asked for, a positive duration. -/
theorem durationOrDefault_in_range (env : String) (default m : Int)
    (hm : Atoi env = some m) (hpos : 0 < m) (hmax : m ≤ 153722867) :
    durationOrDefault env default = m * Minute ∧ 0 < durationOrDefault env default := by
  have hne : env ≠ "" := by
    intro h
    subst h
    simp [Atoi] at hm
  have hw : wrapInt64 (m * Minute) = m * Minute := by
    unfold wrapInt64 Minute
    have h1 : 0 ≤ m * (60 * 1000000000) + (2 : Int) ^ 63 := by positivity
    have h2 : m * (60 * 1000000000) + (2 : Int) ^ 63 < (2 : Int) ^ 64 := by
      have : m * (60 * 1000000000) ≤ 153722867 * (60 * 1000000000) :=
        Int.mul_le_mul_of_nonneg_right hmax (by norm_num)
      norm_num at this ⊢
      omega
    rw [Int.emod_eq_of_lt h1 h2]
    ring
  have hr : durationOrDefault env default = m * Minute := by
    unfold durationOrDefault
    simp only [hne, ne_eq, not_false_eq_true, if_true, hm, gt_iff_lt, hpos, hw]
  refine ⟨hr, ?_⟩
  rw [hr]
  unfold Minute
  positivity

/-- C20, at the failing input: with the variable set to "153722868", a
decimal integer above zero, the product with `time.Minute` exceeds the 64-bit
range, and `durationOrDefault` returns a negative duration, neither 153722868
minutes nor the default. The values that are not a positive integer give the
default: unset or empty, "abc", "0", "-5". -/
theorem C20_durationOrDefault_overflow (default : Int) :
    Atoi "153722868" = some 153722868 ∧
    durationOrDefault "153722868" default = -9223371993709551616 ∧
    durationOrDefault "153722868" default < 0 ∧
    durationOrDefault "153722868" default ≠ 153722868 * Minute ∧
    durationOrDefault "" default = default ∧
    durationOrDefault "abc" default = default ∧
    durationOrDefault "0" default = default ∧
    durationOrDefault "-5" default = default ∧
    durationOrDefault "15" default = 15 * Minute := by
  have h1 : Atoi "153722868" = some 153722868 := by decide
  have hw : wrapInt64 (153722868 * Minute) = -9223371993709551616 := by decide
  have h2 : durationOrDefault "153722868" default = -9223371993709551616 := by
    simp [durationOrDefault, h1, hw]
  refine ⟨h1, h2, ?_, ?_, ?_, ?_, ?_, ?_, ?_⟩
  · rw [h2]; decide
  · rw [h2]; decide
  · rfl
  · have : Atoi "abc" = none := by decide
    simp [durationOrDefault, this]
  · have : Atoi "0" = some 0 := by decide
    simp [durationOrDefault, this]
  · have : Atoi "-5" = some (-5) := by decide
    simp [durationOrDefault, this]
  · have h15 : Atoi "15" = some 15 := by decide
    have hw15 : wrapInt64 (15 * Minute) = 15 * Minute := by decide
    simp [durationOrDefault, h15, hw15]

/-! ## Databases the service builds

The unique index on `email` and the primary key hold in every database
reached from the empty one by service calls against the Postgres
repository. -/

theorem updateEmail_preserves (P : σ → Prop) (caseRanges : Char → Char) (s : UserService σ)
    (hGetByEmail : ∀ e w, P w → P (s.users.GetByEmail e w).2)
    (input : UpdateUserInput) (user : User) (w : σ) (h : P w) :
    P (updateEmail caseRanges s input user w).2 := by
  unfold updateEmail
  cases input.Email with
  | none => exact h
  | some raw =>
    simp only
    cases validateEmail (ToLower caseRanges (TrimSpace raw)) with
    | some e => exact h
    | none =>
      simp only
      have h1 := hGetByEmail (ToLower caseRanges (TrimSpace raw)) w h
      revert h1
      rcases s.users.GetByEmail (ToLower caseRanges (TrimSpace raw)) w with ⟨r, w1⟩
      intro h1
      cases r with
      | error e => exact h1
      | ok existing =>
        cases existing with
        | none => exact h1
        | some ex =>
          simp only
          split
          · exact h1
          · exact h1

theorem updatePersist_preserves (P : σ → Prop) (s : UserService σ)
    (hUpdate : ∀ u w, P w → P (s.users.Update u w).2)
    (hPublish : ∀ e w, P w → P (s.publisher.Publish e w).2)
    (user : User) (w : σ) (h : P w) : P (updatePersist s user w).2 := by
  unfold updatePersist
  have h1 := hUpdate user w h
  revert h1
  rcases s.users.Update user w with ⟨⟨e, u1⟩, w1⟩
  intro h1
  cases e with
  | some e => exact h1
  | none =>
    simp only
    have h2 := hPublish
      { Type_ := EventType.UserUpdated, UserID := u1.ID, Payload := some u1,
        OccurredAt := s.now w1 } w1 h1
    revert h2
    rcases s.publisher.Publish
      { Type_ := EventType.UserUpdated, UserID := u1.ID, Payload := some u1,
        OccurredAt := s.now w1 } w1 with ⟨e, w2⟩
    intro h2
    cases e <;> exact h2

/-- A property of the world that every collaborator call preserves is
preserved by every service call. -/
theorem runCall_preserves (P : σ → Prop) (caseRanges : Char → Char) (s : UserService σ)
    (hList : ∀ w, P w → P (s.users.List w).2)
    (hGetByID : ∀ id w, P w → P (s.users.GetByID id w).2)
    (hGetByEmail : ∀ e w, P w → P (s.users.GetByEmail e w).2)
    (hCreate : ∀ u w, P w → P (s.users.Create u w).2)
    (hUpdate : ∀ u w, P w → P (s.users.Update u w).2)
    (hDelete : ∀ id w, P w → P (s.users.Delete id w).2)
    (hListByUser : ∀ id w, P w → P (s.files.ListByUser id w).2)
    (hAdd : ∀ f w, P w → P (s.files.Add f w).2)
    (hDeleteByUser : ∀ id w, P w → P (s.files.DeleteByUser id w).2)
    (hPublish : ∀ e w, P w → P (s.publisher.Publish e w).2)
    (c : ServiceCall) (w : σ) (h : P w) : P (runCall caseRanges s c w) := by
  cases c with
  | listUsers => exact hList w h
  | getUser id =>
    simp only [runCall, GetUser]
    have h1 := hGetByID id w h
    revert h1
    rcases s.users.GetByID id w with ⟨r, w1⟩
    intro h1
    cases r with
    | error e =>
      simp only
      split <;> exact h1
    | ok u => exact h1
  | createUser input =>
    simp only [runCall, CreateUser]
    cases validateUserInput input.Name input.Email input.Age with
    | some e => exact h
    | none =>
      simp only
      have h1 := hGetByEmail (ToLower caseRanges input.Email) w h
      revert h1
      rcases s.users.GetByEmail (ToLower caseRanges input.Email) w with ⟨r, w1⟩
      intro h1
      cases r with
      | error e => exact h1
      | ok o =>
        cases o with
        | some u => exact h1
        | none =>
          simp only
          have h2 := hCreate { User.zero with
              Name := TrimSpace input.Name
              Email := ToLower caseRanges (TrimSpace input.Email)
              Age := input.Age } w1 h1
          revert h2
          rcases s.users.Create { User.zero with
              Name := TrimSpace input.Name
              Email := ToLower caseRanges (TrimSpace input.Email)
              Age := input.Age } w1 with ⟨⟨e, u⟩, w2⟩
          intro h2
          cases e with
          | some e => exact h2
          | none =>
            simp only
            have h3 := hPublish
              { Type_ := EventType.UserCreated, UserID := u.ID, Payload := some u,
                OccurredAt := s.now w2 } w2 h2
            revert h3
            rcases s.publisher.Publish
              { Type_ := EventType.UserCreated, UserID := u.ID, Payload := some u,
                OccurredAt := s.now w2 } w2 with ⟨e, w3⟩
            intro h3
            cases e <;> exact h3
  | updateUser id input =>
    simp only [runCall, UpdateUser]
    have h1 := hGetByID id w h
    revert h1
    rcases s.users.GetByID id w with ⟨r, w1⟩
    intro h1
    cases r with
    | error e => exact h1
    | ok u =>
      simp only
      have h2 := updateEmail_preserves P caseRanges s hGetByEmail input (updateName input u) w1 h1
      revert h2
      rcases updateEmail caseRanges s input (updateName input u) w1 with ⟨r2, w2⟩
      intro h2
      cases r2 with
      | error e => exact h2
      | ok u1 =>
        simp only
        cases updateAge input u1 with
        | error e => exact h2
        | ok u2 => exact updatePersist_preserves P s hUpdate hPublish u2 w2 h2
  | deleteUser id =>
    simp only [runCall, DeleteUser]
    have h1 := hDelete id w h
    revert h1
    rcases s.users.Delete id w with ⟨e, w1⟩
    intro h1
    cases e with
    | some e => exact h1
    | none =>
      simp only
      have h2 := hPublish
        { Type_ := EventType.UserDeleted, UserID := id, Payload := none,
          OccurredAt := s.now w1 } w1 h1
      revert h2
      rcases s.publisher.Publish
        { Type_ := EventType.UserDeleted, UserID := id, Payload := none,
          OccurredAt := s.now w1 } w1 with ⟨e, w2⟩
      intro h2
      cases e <;> exact h2
  | listFiles userID =>
    simp only [runCall, ListFiles]
    have h1 := hGetByID userID w h
    revert h1
    rcases s.users.GetByID userID w with ⟨r, w1⟩
    intro h1
    cases r with
    | error e => exact h1
    | ok u => exact hListByUser userID w1 h1
  | addFile userID input =>
    simp only [runCall, AddFile]
    have h1 := hGetByID userID w h
    revert h1
    rcases s.users.GetByID userID w with ⟨r, w1⟩
    intro h1
    cases r with
    | error e => exact h1
    | ok u =>
      simp only
      split
      · exact h1
      · have h2 := hAdd { File.zero with
            UserID := userID
            Name := TrimSpace input.Name
            Path := TrimSpace input.Path } w1 h1
        revert h2
        rcases s.files.Add { File.zero with
            UserID := userID
            Name := TrimSpace input.Name
            Path := TrimSpace input.Path } w1 with ⟨⟨e, f⟩, w2⟩
        intro h2
        cases e <;> exact h2
  | deleteFiles userID =>
    simp only [runCall, DeleteFiles]
    have h1 := hGetByID userID w h
    revert h1
    rcases s.users.GetByID userID w with ⟨r, w1⟩
    intro h1
    cases r with
    | error e => exact h1
    | ok u => exact hDeleteByUser userID w1 h1

theorem Repository_Create_keys (user : User) (db : Database)
    (h : db.user_models.Pairwise (fun a b => a.ID ≠ b.ID ∧ a.Email ≠ b.Email)) :
    (Repository.Create user db).2.user_models.Pairwise
      (fun a b => a.ID ≠ b.ID ∧ a.Email ≠ b.Email) := by
  unfold Repository.Create
  dsimp only
  by_cases hid : (db.user_models.any (fun u => decide (u.ID =
      (if (fromDomain user).ID = 0 then db.userSeq else (fromDomain user).ID)))) = true
  · rw [if_pos hid]
    exact h
  · rw [if_neg hid]
    by_cases hem : (db.user_models.any (fun u => decide (u.Email = (fromDomain user).Email))) = true
    · rw [if_pos hem]
      exact h
    · rw [if_neg hem]
      dsimp only
      rw [List.pairwise_append]
      refine ⟨h, List.pairwise_singleton _ _, ?_⟩
      intro a ha b hb
      rw [List.mem_singleton] at hb
      subst hb
      dsimp only
      constructor
      · intro e
        apply hid
        rw [List.any_eq_true]
        exact ⟨a, ha, by simpa using e⟩
      · intro e
        apply hem
        rw [List.any_eq_true]
        exact ⟨a, ha, by simpa using e⟩

theorem Repository_Delete_keys (id : Nat) (db : Database)
    (h : db.user_models.Pairwise (fun a b => a.ID ≠ b.ID ∧ a.Email ≠ b.Email)) :
    (Repository.Delete id db).2.user_models.Pairwise
      (fun a b => a.ID ≠ b.ID ∧ a.Email ≠ b.Email) := by
  have hmap : (db.user_models.map (fun row =>
        if row.ID = id ∧ row.DeletedAt = none then { row with DeletedAt := some db.clock }
        else row)).Pairwise (fun a b => a.ID ≠ b.ID ∧ a.Email ≠ b.Email) := by
    rw [List.pairwise_map]
    refine h.imp ?_
    intro a b hab
    have e : ∀ x : UserModel,
        (if x.ID = id ∧ x.DeletedAt = none then { x with DeletedAt := some db.clock }
          else x).ID = x.ID ∧
        (if x.ID = id ∧ x.DeletedAt = none then { x with DeletedAt := some db.clock }
          else x).Email = x.Email := by
      intro x
      by_cases hx : x.ID = id ∧ x.DeletedAt = none
      · rw [if_pos hx]; exact ⟨rfl, rfl⟩
      · rw [if_neg hx]; exact ⟨rfl, rfl⟩
    rw [(e a).1, (e a).2, (e b).1, (e b).2]
    exact hab
  unfold Repository.Delete
  simp only
  split <;> exact hmap

theorem applyUpdates_keys (clock : Time) (model row : UserModel) (h : model.ID = row.ID) :
    (applyUpdates clock model row).ID = row.ID ∧
    ((applyUpdates clock model row).Email = row.Email ∨
      (model.Email ≠ "" ∧ (applyUpdates clock model row).Email = model.Email)) := by
  unfold applyUpdates
  constructor
  · simp only
    split
    · rfl
    · exact h
  · simp only
    by_cases he : model.Email = ""
    · left; simp [he]
    · right; simp [he]

theorem Repository_Update_keys (user : User) (db : Database)
    (h : db.user_models.Pairwise (fun a b => a.ID ≠ b.ID ∧ a.Email ≠ b.Email)) :
    (Repository.Update user db).2.user_models.Pairwise
      (fun a b => a.ID ≠ b.ID ∧ a.Email ≠ b.Email) := by
  unfold Repository.Update
  simp only
  split
  · exact h
  · split
    · exact h
    · rename_i hviol
      simp only
      rw [List.pairwise_map]
      refine List.Pairwise.imp_of_mem ?_ h
      intro a b ha hb hab
      have key : ∀ x y : UserModel, x ∈ db.user_models → y ∈ db.user_models →
          x.ID ≠ y.ID → x.Email ≠ y.Email →
          (x.ID = user.ID ∧ x.DeletedAt = none) → ¬ (y.ID = user.ID ∧ y.DeletedAt = none) →
          (applyUpdates db.clock { fromDomain user with ID := user.ID } x).ID ≠ y.ID ∧
          (applyUpdates db.clock { fromDomain user with ID := user.ID } x).Email ≠ y.Email := by
        intro x y hx hy hid hem hxc hyc
        have hk := applyUpdates_keys db.clock { fromDomain user with ID := user.ID } x hxc.1.symm
        refine ⟨by rw [hk.1]; exact hid, ?_⟩
        rcases hk.2 with he | ⟨hne, he⟩
        · rw [he]; exact hem
        · rw [he]
          intro hc
          apply hviol
          refine ⟨hne, ?_, ?_⟩
          · rw [List.any_eq_true]
            exact ⟨x, hx, by simpa using hxc⟩
          · rw [List.any_eq_true]
            refine ⟨y, hy, ?_⟩
            have hyid : y.ID ≠ user.ID := by
              intro e
              exact hid (hxc.1.trans e.symm)
            simpa using And.intro hc.symm hyid
      by_cases hac : a.ID = user.ID ∧ a.DeletedAt = none
      · by_cases hbc : b.ID = user.ID ∧ b.DeletedAt = none
        · exact absurd (hac.1.trans hbc.1.symm) hab.1
        · rw [if_pos hac, if_neg hbc]
          exact key a b ha hb hab.1 hab.2 hac hbc
      · by_cases hbc : b.ID = user.ID ∧ b.DeletedAt = none
        · rw [if_neg hac, if_pos hbc]
          have := key b a hb ha (Ne.symm hab.1) (Ne.symm hab.2) hbc hac
          exact ⟨Ne.symm this.1, Ne.symm this.2⟩
        · rw [if_neg hac, if_neg hbc]
          exact hab

/-- One service call against the Postgres repository keeps the primary key
and the unique index on `email`. -/
theorem runCall_pg_keys {π : Type} (caseRanges : Char → Char) (p : Publisher π)
    (c : ServiceCall) (w : Database × π)
    (h : w.1.user_models.Pairwise (fun a b => a.ID ≠ b.ID ∧ a.Email ≠ b.Email)) :
    (runCall caseRanges (pgService p) c w).1.user_models.Pairwise
      (fun a b => a.ID ≠ b.ID ∧ a.Email ≠ b.Email) := by
  apply runCall_preserves
    (fun w : Database × π =>
      w.1.user_models.Pairwise (fun a b => a.ID ≠ b.ID ∧ a.Email ≠ b.Email))
    caseRanges (pgService p)
  · intro w hw; exact hw
  · intro id w hw
    simp only [pgService, onDatabase, Repository.GetByID]
    split <;> exact hw
  · intro e w hw
    simp only [pgService, onDatabase, Repository.GetByEmail]
    split <;> exact hw
  · intro u w hw; exact Repository_Create_keys u w.1 hw
  · intro u w hw; exact Repository_Update_keys u w.1 hw
  · intro id w hw; exact Repository_Delete_keys id w.1 hw
  · intro id w hw; exact hw
  · intro f w hw
    have e : (Repository.Add f w.1).2.user_models = w.1.user_models := by
      unfold Repository.Add
      dsimp only
      split_ifs <;> rfl
    show ((Repository.Add f w.1).2.user_models).Pairwise _
    rw [e]
    exact hw
  · intro id w hw; exact hw
  · intro e w hw; exact hw
  · exact h

/-- Every database the service builds from the empty one, against the
Postgres repository, has pairwise distinct identifiers and pairwise distinct
emails. -/
theorem runCalls_pg_keys {π : Type} (caseRanges : Char → Char) (p : Publisher π)
    (cs : List ServiceCall) (ps : π) :
    (runCalls caseRanges (pgService p) cs (Database.empty, ps)).1.user_models.Pairwise
      (fun a b => a.ID ≠ b.ID ∧ a.Email ≠ b.Email) := by
  have gen : ∀ (cs : List ServiceCall) (w : Database × π),
      w.1.user_models.Pairwise (fun a b => a.ID ≠ b.ID ∧ a.Email ≠ b.Email) →
      (runCalls caseRanges (pgService p) cs w).1.user_models.Pairwise
        (fun a b => a.ID ≠ b.ID ∧ a.Email ≠ b.Email) := by
    intro cs
    induction cs with
    | nil => intro w h; exact h
    | cons c t ih =>
      intro w h
      exact ih _ (runCall_pg_keys caseRanges p c w h)
  exact gen cs (Database.empty, ps) List.Pairwise.nil

/-- Every database the service builds from the empty one satisfies the unique
index on `email`: no two rows, deleted or not, have the same email. -/
theorem runCalls_pg_unique_email {π : Type} (caseRanges : Char → Char) (p : Publisher π)
    (cs : List ServiceCall) (ps : π) :
    (runCalls caseRanges (pgService p) cs (Database.empty, ps)).1.user_models.Pairwise
      (fun a b => a.Email ≠ b.Email) :=
  (runCalls_pg_keys caseRanges p cs ps).imp (fun h => h.2)

/-! ## The conflict check of `UpdateUser` against the Postgres repository -/

theorem pg_find_id_some (db : Database) (id : Nat) (row : UserModel)
    (h : db.user_models.find? (fun u => u.ID = id ∧ u.DeletedAt = none) = some row) :
    row ∈ db.user_models ∧ row.ID = id ∧ row.DeletedAt = none := by
  refine ⟨List.mem_of_find?_eq_some h, ?_⟩
  simpa using List.find?_some h

theorem pg_find_email_some (db : Database) (email : String) (row : UserModel)
    (h : db.user_models.find? (fun u => u.Email = email ∧ u.DeletedAt = none) = some row) :
    row ∈ db.user_models ∧ row.Email = email ∧ row.DeletedAt = none := by
  refine ⟨List.mem_of_find?_eq_some h, ?_⟩
  simpa using List.find?_some h

theorem pgService_GetByID_some {π : Type} (p : Publisher π) (db : Database) (ps : π) (id : Nat)
    (row : UserModel)
    (h : db.user_models.find? (fun u => u.ID = id ∧ u.DeletedAt = none) = some row) :
    (pgService p).users.GetByID id (db, ps) = (.ok (db.preload row).toDomain, (db, ps)) := by
  simp only [pgService, onDatabase, Repository.GetByID, h]

theorem pairwise_model_email_inj (l : List UserModel)
    (h : l.Pairwise (fun a b => a.Email ≠ b.Email)) (a b : UserModel) (ha : a ∈ l)
    (hb : b ∈ l) (hab : a.Email = b.Email) : a = b := by
  by_contra hne
  have hs : Symmetric (fun a b : UserModel => a.Email ≠ b.Email) := fun _ _ hxy => Ne.symm hxy
  exact (List.Pairwise.forall hs h ha hb hne) hab

/-- The conflict check of `UpdateUser` against the Postgres repository, in any
database: `ErrConflict` means that another stored user has the normalized
email; where the unique index on `email` holds, it is returned exactly then,
and never for the email the user already has. -/
theorem UpdateUser_pg_conflict_iff {π : Type} (caseRanges : Char → Char)
    (p : Publisher π) (db : Database) (ps : π) (id : Nat) (row : UserModel)
    (input : UpdateUserInput) (raw : String)
    (hrow : db.user_models.find? (fun u => u.ID = id ∧ u.DeletedAt = none) = some row)
    (hE : input.Email = some raw)
    (_hne : ToLower caseRanges (TrimSpace raw) ≠ "")
    (hc : Contains (ToLower caseRanges (TrimSpace raw)) "@" = true) :
    ((UpdateUser caseRanges (pgService p) id input (db, ps)).1.2 = some Err.ErrConflict →
      ∃ v ∈ db.user_models, v.DeletedAt = none ∧
        v.Email = ToLower caseRanges (TrimSpace raw) ∧ v.ID ≠ row.ID) ∧
    (db.user_models.Pairwise (fun a b => a.Email ≠ b.Email) →
      ((UpdateUser caseRanges (pgService p) id input (db, ps)).1.2 = some Err.ErrConflict ↔
        ∃ v ∈ db.user_models, v.DeletedAt = none ∧
          v.Email = ToLower caseRanges (TrimSpace raw) ∧ v.ID ≠ row.ID) ∧
      (row.Email = ToLower caseRanges (TrimSpace raw) →
        (UpdateUser caseRanges (pgService p) id input (db, ps)).1.2 ≠ some Err.ErrConflict)) := by
  have hmem := pg_find_id_some db id row hrow
  have hG := pgService_GetByID_some p db ps id row hrow
  have hv := (validateEmail_eq_none_iff_contains _).2 hc
  have hID : (updateName input (db.preload row).toDomain).ID = row.ID := by
    rw [(updateName_frame input _).1]; rfl
  have hstep := UpdateUser_conflict_iff caseRanges (pgService p) id input _ _ _ hG
  have fwd : (UpdateUser caseRanges (pgService p) id input (db, ps)).1.2 = some Err.ErrConflict →
      ∃ v ∈ db.user_models, v.DeletedAt = none ∧
        v.Email = ToLower caseRanges (TrimSpace raw) ∧ v.ID ≠ row.ID := by
    rw [hstep]
    cases hF : db.user_models.find?
        (fun u => u.Email = ToLower caseRanges (TrimSpace raw) ∧ u.DeletedAt = none) with
    | none =>
      simp only [updateEmail, hE, hv, pgService, onDatabase, Repository.GetByEmail, hF]
      intro h; cases h
    | some e =>
      have he := pg_find_email_some db _ e hF
      simp only [updateEmail, hE, hv, pgService, onDatabase, Repository.GetByEmail, hF, hID]
      by_cases hd : e.ID = row.ID
      · have hd2 : e.toDomain.ID = row.ID := hd
        simp only [hd2, ne_eq, not_true_eq_false, if_false]
        intro h; cases h
      · intro _
        exact ⟨e, he.1, he.2.2, he.2.1, hd⟩
  refine ⟨fwd, ?_⟩
  intro huniq
  have bwd : (∃ v ∈ db.user_models, v.DeletedAt = none ∧
        v.Email = ToLower caseRanges (TrimSpace raw) ∧ v.ID ≠ row.ID) →
      (UpdateUser caseRanges (pgService p) id input (db, ps)).1.2 = some Err.ErrConflict := by
    rintro ⟨v, hv2, hvd, hve, hvid⟩
    rw [hstep]
    cases hF : db.user_models.find?
        (fun u => u.Email = ToLower caseRanges (TrimSpace raw) ∧ u.DeletedAt = none) with
    | none =>
      have := List.find?_eq_none.1 hF v hv2
      exact absurd (And.intro hve hvd) (by simpa using this)
    | some e =>
      have he := pg_find_email_some db _ e hF
      have hev : v = e :=
        pairwise_model_email_inj db.user_models huniq v e hv2 he.1 (hve.trans he.2.1.symm)
      subst hev
      have hd2 : ¬ v.toDomain.ID = row.ID := hvid
      simp only [updateEmail, hE, hv, pgService, onDatabase, Repository.GetByEmail, hF, hID,
        ne_eq, hd2, not_false_eq_true, if_true]
  refine ⟨⟨fwd, bwd⟩, ?_⟩
  intro hown h
  obtain ⟨v, hv2, _, hve, hvid⟩ := fwd h
  have : v = row :=
    pairwise_model_email_inj db.user_models huniq v row hv2 hmem.1 (hve.trans hown.symm)
  subst this
  exact hvid rfl

/-! ## C7 -/

/-- C7: against the Postgres repository, in every database the service builds
from the empty one (by any sequence of service calls, with any publisher), for
every stored user `row` with identifier `id` and every input that provides an
email whose normalized form `n` (trimmed, lower-cased) is non-empty and
contains "@": `UpdateUser` returns `ErrConflict` if and only if some stored
user with email `n` has an identifier other than that of `row`; in
particular it does not return `ErrConflict` when `n` is the email `row`
already has. A stored user is a row that is not marked deleted. -/
theorem C7_updateUser_conflict_iff_other_user {π : Type} (caseRanges : Char → Char)
    (p : Publisher π) (cs : List ServiceCall) (ps0 : π) (id : Nat) (row : UserModel)
    (input : UpdateUserInput) (raw : String)
    (hrow : (runCalls caseRanges (pgService p) cs (Database.empty, ps0)).1.user_models.find?
      (fun u => u.ID = id ∧ u.DeletedAt = none) = some row)
    (hE : input.Email = some raw)
    (hne : ToLower caseRanges (TrimSpace raw) ≠ "")
    (hc : Contains (ToLower caseRanges (TrimSpace raw)) "@" = true) :
    ((UpdateUser caseRanges (pgService p) id input
        (runCalls caseRanges (pgService p) cs (Database.empty, ps0))).1.2 = some Err.ErrConflict ↔
      ∃ v ∈ (runCalls caseRanges (pgService p) cs (Database.empty, ps0)).1.user_models,
        v.DeletedAt = none ∧ v.Email = ToLower caseRanges (TrimSpace raw) ∧ v.ID ≠ row.ID) ∧
    (row.Email = ToLower caseRanges (TrimSpace raw) →
      (UpdateUser caseRanges (pgService p) id input
        (runCalls caseRanges (pgService p) cs (Database.empty, ps0))).1.2
        ≠ some Err.ErrConflict) := by
  have huniq := runCalls_pg_unique_email caseRanges p cs ps0
  generalize runCalls caseRanges (pgService p) cs (Database.empty, ps0) = w at hrow huniq ⊢
  obtain ⟨db, ps⟩ := w
  exact (UpdateUser_pg_conflict_iff caseRanges p db ps id row input raw hrow hE hne hc).2 huniq

/-- C7, applied: Jane and Bob are created in the empty database. Jane asks for
Bob's email, in upper case and with blanks around it, and gets `ErrConflict`;
asking for her own email, in upper case, she does not. -/
theorem C7_updateUser_conflict_iff_other_user_witness :
    (UpdateUser id (pgService InMemoryPublisher) 1
        { Name := none, Email := some " BOB@EXAMPLE.COM ", Age := none }
        (runCalls id (pgService InMemoryPublisher)
          [ServiceCall.createUser { Name := "Jane", Email := "jane@example.com", Age := 30 },
           ServiceCall.createUser { Name := "Bob", Email := "bob@example.com", Age := 40 }]
          (Database.empty, []))).1.2 = some Err.ErrConflict ∧
    (UpdateUser id (pgService InMemoryPublisher) 1
        { Name := none, Email := some "JANE@example.com", Age := none }
        (runCalls id (pgService InMemoryPublisher)
          [ServiceCall.createUser { Name := "Jane", Email := "jane@example.com", Age := 30 },
           ServiceCall.createUser { Name := "Bob", Email := "bob@example.com", Age := 40 }]
          (Database.empty, []))).1.2 ≠ some Err.ErrConflict :=
  ⟨(C7_updateUser_conflict_iff_other_user id InMemoryPublisher
      [ServiceCall.createUser { Name := "Jane", Email := "jane@example.com", Age := 30 },
       ServiceCall.createUser { Name := "Bob", Email := "bob@example.com", Age := 40 }] [] 1
      { ID := 1, CreatedAt := 0, UpdatedAt := 0, DeletedAt := none, Name := "Jane",
        Email := "jane@example.com", Age := 30, Files := [] }
      { Name := none, Email := some " BOB@EXAMPLE.COM ", Age := none } " BOB@EXAMPLE.COM "
      (by decide) rfl (by decide) (by decide)).1.2
      ⟨{ ID := 2, CreatedAt := 0, UpdatedAt := 0, DeletedAt := none, Name := "Bob",
         Email := "bob@example.com", Age := 40, Files := [] },
        by decide, rfl, by decide, by decide⟩,
   (C7_updateUser_conflict_iff_other_user id InMemoryPublisher
      [ServiceCall.createUser { Name := "Jane", Email := "jane@example.com", Age := 30 },
       ServiceCall.createUser { Name := "Bob", Email := "bob@example.com", Age := 40 }] [] 1
      { ID := 1, CreatedAt := 0, UpdatedAt := 0, DeletedAt := none, Name := "Jane",
        Email := "jane@example.com", Age := 30, Files := [] }
      { Name := none, Email := some "JANE@example.com", Age := none } "JANE@example.com"
      (by decide) rfl (by decide) (by decide)).2 (by decide)⟩

/-! ## Publish failures against the Postgres repository -/

/-- With a publisher that fails, against the Postgres repository: `CreateUser`
returns the zero user and the wrapped publish error, and the created user is
found afterwards; `DeleteUser` returns the wrapped publish error, and the
deleted user is not found afterwards; `UpdateUser` with the name "Janet"
returns the zero user and the wrapped publish error, and the stored name
afterwards is "Janet". -/
theorem publish_failure_keeps_mutation (caseRanges : Char → Char) :
    ((CreateUser caseRanges (pgService failingPublisher)
        { Name := "Jane", Email := "jane@example.com", Age := 30 } (Database.empty, ())).1
      = (User.zero,
          some (Err.wrapped "publish user created" (Err.other "broker unreachable"))) ∧
     (GetUser (pgService failingPublisher) 1
        (CreateUser caseRanges (pgService failingPublisher)
          { Name := "Jane", Email := "jane@example.com", Age := 30 } (Database.empty, ())).2).1
      = ({ User.zero with ID := 1, Name := "Jane", Email := "jane@example.com", Age := 30 },
          none)) ∧
    ((DeleteUser (pgService failingPublisher) 1 (databaseWithJane, ())).1
      = some (Err.wrapped "publish user deleted" (Err.other "broker unreachable")) ∧
     (GetUser (pgService failingPublisher) 1
        (DeleteUser (pgService failingPublisher) 1 (databaseWithJane, ())).2).1
      = (User.zero, some Err.ErrNotFound)) ∧
    ((UpdateUser caseRanges (pgService failingPublisher) 1
        { Name := some "Janet", Email := none, Age := none } (databaseWithJane, ())).1
      = (User.zero,
          some (Err.wrapped "publish user updated" (Err.other "broker unreachable"))) ∧
     (GetUser (pgService failingPublisher) 1
        (UpdateUser caseRanges (pgService failingPublisher) 1
          { Name := some "Janet", Email := none, Age := none } (databaseWithJane, ())).2).1.1.Name
      = "Janet") := by
  refine ⟨⟨?_, ?_⟩, ⟨?_, ?_⟩, ?_, ?_⟩ <;> rfl

/-! ## C9 -/

/-- C9, at the failing input: Jane (identifier 1) is stored in the Postgres
repository and the publisher fails. `UpdateUser 1` with a name made of two
blanks calls `GetByID`, `Update` and `Publish`; `Update` returns no error,
`Publish` returns an error, and the operation returns the zero user and the
wrapped publish error. Nothing is rolled back: the database is the one the
same call leaves with a working publisher. But the update is not persisted:
`Updates` skipped the empty name, the stored name is still "Jane", and
`GetUser 1` afterwards returns the name "Jane". -/
theorem C9_publish_failure_update_not_persisted (caseRanges : Char → Char) :
    ((UpdateUser caseRanges (tracedErr (pgService failingPublisher)) 1
        { Name := some "  ", Email := none, Age := none } ((databaseWithJane, ()), [])).1
      = (User.zero,
          some (Err.wrapped "publish user updated" (Err.other "broker unreachable"))) ∧
     (UpdateUser caseRanges (tracedErr (pgService failingPublisher)) 1
        { Name := some "  ", Email := none, Age := none } ((databaseWithJane, ()), [])).2.2
      = [(Call.getByID 1, false),
         (Call.update
            { ID := 1, Name := "", Email := "jane@example.com", Age := 30,
              Files := [{ ID := 1, UserID := 1, Name := "passport",
                          Path := "/tmp/passport.pdf", CreatedAt := 6 }],
              CreatedAt := 5, UpdatedAt := 5 }, false),
         (Call.publish
            { Type_ := EventType.UserUpdated, UserID := 1,
              Payload := some
                { ID := 1, Name := "", Email := "jane@example.com", Age := 30,
                  Files := [{ ID := 1, UserID := 1, Name := "passport",
                              Path := "/tmp/passport.pdf", CreatedAt := 6 }],
                  CreatedAt := 5, UpdatedAt := 5 },
              OccurredAt := 9 }, true)]) ∧
    ((UpdateUser caseRanges (pgService failingPublisher) 1
        { Name := some "  ", Email := none, Age := none } (databaseWithJane, ())).1
      = (User.zero,
          some (Err.wrapped "publish user updated" (Err.other "broker unreachable"))) ∧
     (UpdateUser caseRanges (pgService failingPublisher) 1
        { Name := some "  ", Email := none, Age := none } (databaseWithJane, ())).2.1
      = (UpdateUser caseRanges (pgService InMemoryPublisher) 1
          { Name := some "  ", Email := none, Age := none } (databaseWithJane, [])).2.1) ∧
    ((UpdateUser caseRanges (pgService failingPublisher) 1
        { Name := some "  ", Email := none, Age := none } (databaseWithJane, ())).2.1.user_models
      = [{ ID := 1, CreatedAt := 5, UpdatedAt := 9, DeletedAt := none, Name := "Jane",
           Email := "jane@example.com", Age := 30, Files := [] }] ∧
     (GetUser (pgService failingPublisher) 1
        (UpdateUser caseRanges (pgService failingPublisher) 1
          { Name := some "  ", Email := none, Age := none } (databaseWithJane, ())).2).1.2 = none ∧
     (GetUser (pgService failingPublisher) 1
        (UpdateUser caseRanges (pgService failingPublisher) 1
          { Name := some "  ", Email := none, Age := none } (databaseWithJane, ())).2).1.1.Name
       = "Jane") := by
  refine ⟨⟨?_, ?_⟩, ⟨?_, ?_⟩, ?_, ?_, ?_⟩ <;> rfl

end UserSvc
